import Mathlib

/-!
# Beam protocol engine — verification development

A shallow embedding of the Beam visual file-transfer core
(`src/app/lib/beam/{types,protocol,file-storage}.ts`) together with proofs
about its codec, chunker, chunk store eviction, and the sender/receiver
state machines.

Modelling conventions:

* TypeScript byte arrays (`Uint8Array`) are `List Nat` with every element
  `< 256` where the claim needs it; TypeScript strings that travel on the
  wire are modelled by their UTF-8 byte sequences (`List Nat`), since the
  binary encoder only ever sees those bytes.
* JavaScript numbers holding integers are `Int` (or `Nat` where the source
  can only produce non-negative values).
* Thrown `TransferError`s become explicit `Except`/`Option` error results;
  the engines' effects (frames written, callback invocations, promise
  settlement) are returned as explicit lists alongside the new state.
* The external `@msgpack/msgpack` and `btoa`/`atob` library calls are
  modelled by executable encoders/decoders faithful to those libraries'
  documented behaviour on the value domain this protocol uses (integers,
  strings, byte blobs, arrays, nil, booleans); MessagePack families the
  protocol never emits (floats, maps, ext) are treated as decode failures.
-/

set_option maxRecDepth 8000

namespace Beam

/-! ## Core enums (`types.ts`) -/

/-- `enum MessageType` — the numeric tag of each wire message. -/
inductive MessageType | hello | ack | pull | data | error
deriving DecidableEq, Repr

/-- The numeric value of a `MessageType` as it appears on the wire. -/
def MessageType.toNat : MessageType → Nat
  | .hello => 0 | .ack => 1 | .pull => 2 | .data => 3 | .error => 4

/-- `enum PartyType { SENDER = 0, RECEIVER = 1 }`. -/
def PartyType.SENDER : Int := 0

/-- `PartyType.RECEIVER = 1`. -/
def PartyType.RECEIVER : Int := 1

/-- `enum ProtocolVersion { V0 = 0 }`. -/
def ProtocolVersion.V0 : Int := 0

/-- `enum ErrorType { INVALID_PARTY = 0 }`. -/
def ErrorType.INVALID_PARTY : Int := 0

/-- `enum ErrorCode` — the code carried by a thrown `TransferError`. -/
inductive ErrorCode
  | protocolError | timeout | invalidParty | connectionLost
  | fileTooLarge | invalidChunk | sessionExpired
deriving DecidableEq, Repr

/-- `class TransferError` — code plus human-readable message (the optional
session id and details are dropped; no claim mentions them). -/
structure TransferError where
  code : ErrorCode
  msg : String
deriving DecidableEq, Repr

/-- `enum TransferState` — engine lifecycle states. -/
inductive TransferState
  | idle | handshake | transfer | done | error | cancelled
deriving DecidableEq, Repr

/-! ## Chunker (`protocol.ts`: `chunkFile`, `assembleFile`)

`chunkFile` iterates `for (let offset = 0; offset < fileSize; offset += chunkSize)`
pushing `file.slice(offset, offset + chunkSize)`.  With `chunkSize = 0` the
source loop would never terminate; the model returns `[]` there and every
theorem assumes `chunkSize ≥ 1`. -/

/-- A `File`: name, MIME type and content bytes; `size` is the content length. -/
structure BFile where
  name : List Nat
  mime : List Nat
  content : List Nat
deriving DecidableEq, Repr

/-- `file.size` -/
def BFile.size (f : BFile) : Nat := f.content.length

/-- `chunkFile(file, chunkSize)` on the file's content bytes. -/
def chunkFile (content : List Nat) (chunkSize : Nat) : List (List Nat) :=
  if h : chunkSize = 0 ∨ content = [] then []
  else content.take chunkSize :: chunkFile (content.drop chunkSize) chunkSize
termination_by content.length
decreasing_by
  push_neg at h
  obtain ⟨h0, hne⟩ := h
  have : content.length ≠ 0 := fun hl => hne (List.length_eq_zero.mp hl)
  simp only [List.length_drop]
  omega

/-- `assembleFile(chunks, fileName, mimeType)` — concatenate in order and
attach the metadata. -/
def assembleFile (chunks : List (List Nat)) (fileName mimeType : List Nat) : BFile :=
  ⟨fileName, mimeType, chunks.flatten⟩

/-! ## Base64 (`btoa` / `atob`)

`serializeMessage` runs `btoa(String.fromCharCode(...bytes))` and
`deserializeMessage` runs `atob` + `charCodeAt`, so the pair acts as a
byte-list codec: standard alphabet, `=` padding.  `atob` is modelled
strictly (groups of four characters, padding only at the end). -/

/-- The standard base64 alphabet, indexed by sextet value. -/
def b64Char (n : Nat) : Char :=
  "ABCDEFGHIJKLMNOPQRSTUVWXYZabcdefghijklmnopqrstuvwxyz0123456789+/".toList.getD n 'A'

/-- The sextet value of a base64 character (`none` for characters outside
the alphabet, including `=`). -/
def b64Val (c : Char) : Option Nat :=
  (List.range 64).findSome? (fun n => if b64Char n = c then some n else none)

/-- `btoa`: encode bytes three at a time into four base64 characters,
padding the final group with `=`. -/
def b64EncodeBytes : List Nat → List Char
  | [] => []
  | [a] => [b64Char (a / 4), b64Char (a % 4 * 16), '=', '=']
  | [a, b] => [b64Char (a / 4), b64Char (a % 4 * 16 + b / 16), b64Char (b % 16 * 4), '=']
  | a :: b :: c :: rest =>
      b64Char (a / 4) :: b64Char (a % 4 * 16 + b / 16) ::
        b64Char (b % 16 * 4 + c / 64) :: b64Char (c % 64) :: b64EncodeBytes rest

/-- `atob`: decode four characters at a time; `none` on any character
outside the alphabet, misplaced padding, or a length that is not a
multiple of four. -/
def b64DecodeChars : List Char → Option (List Nat)
  | [] => some []
  | c0 :: c1 :: c2 :: c3 :: rest =>
      match b64Val c0, b64Val c1 with
      | some v0, some v1 =>
        if c2 = '=' then
          if c3 = '=' ∧ rest = [] then some [v0 * 4 + v1 / 16] else none
        else
          match b64Val c2 with
          | some v2 =>
            if c3 = '=' then
              if rest = [] then some [v0 * 4 + v1 / 16, v1 % 16 * 16 + v2 / 4] else none
            else
              match b64Val c3 with
              | some v3 =>
                  (b64DecodeChars rest).map
                    (fun tl => (v0 * 4 + v1 / 16) :: (v1 % 16 * 16 + v2 / 4) ::
                      (v2 % 4 * 64 + v3) :: tl)
              | none => none
          | none => none
      | _, _ => none
  | _ => none

/-- `btoa` producing a JavaScript string. -/
def btoa (bs : List Nat) : String := ⟨b64EncodeBytes bs⟩

/-- `atob` consuming a JavaScript string (`none` models the thrown
`InvalidCharacterError`). -/
def atob (s : String) : Option (List Nat) := b64DecodeChars s.data

/-! ## MessagePack (`@msgpack/msgpack`: `encode` / `decode`)

The protocol serializes positional tuples whose elements are integers,
strings, byte blobs, nested arrays, and (defensively) nil/booleans.  The
encoder below mirrors the library's byte layout for exactly those
families; the decoder accepts them and fails on every other MessagePack
type tag (floats, maps, ext — never produced by this protocol). -/

/-- The MessagePack value domain used by the protocol. `str` carries the
string's UTF-8 bytes. -/
inductive MsgVal
  | nil
  | bool (b : Bool)
  | int (i : Int)
  | str (s : List Nat)
  | bin (b : List Nat)
  | arr (l : List MsgVal)

/-- `k`-byte big-endian encoding of `n mod 256^k`. -/
def natToBE (k : Nat) (n : Nat) : List Nat :=
  match k with
  | 0 => []
  | k + 1 => natToBE k (n / 256) ++ [n % 256]

/-- Big-endian value of a byte list. -/
def beToNat (bs : List Nat) : Nat := bs.foldl (fun a b => a * 256 + b) 0

/-- Read exactly `n` raw bytes. -/
def readN (n : Nat) (bs : List Nat) : Option (List Nat × List Nat) :=
  if bs.length < n then none else some (bs.take n, bs.drop n)

/-- Read a `k`-byte big-endian unsigned integer. -/
def readBE (k : Nat) (bs : List Nat) : Option (Nat × List Nat) :=
  if bs.length < k then none else some (beToNat (bs.take k), bs.drop k)

mutual

/-- MessagePack encoding of one value, following the library's
shortest-form choices for integers, strings, binaries and arrays. -/
def mpEncode : MsgVal → List Nat
  | .nil => [0xc0]
  | .bool false => [0xc2]
  | .bool true => [0xc3]
  | .int i =>
    if 0 ≤ i then
      if i.toNat < 0x80 then [i.toNat]
      else if i.toNat < 0x100 then 0xcc :: natToBE 1 i.toNat
      else if i.toNat < 0x10000 then 0xcd :: natToBE 2 i.toNat
      else if i.toNat < 0x100000000 then 0xce :: natToBE 4 i.toNat
      else 0xcf :: natToBE 8 i.toNat
    else
      if -0x20 ≤ i then [(i + 0x100).toNat]
      else if -0x80 ≤ i then 0xd0 :: natToBE 1 (i + 0x100).toNat
      else if -0x8000 ≤ i then 0xd1 :: natToBE 2 (i + 0x10000).toNat
      else if -0x80000000 ≤ i then 0xd2 :: natToBE 4 (i + 0x100000000).toNat
      else 0xd3 :: natToBE 8 (i + 0x10000000000000000).toNat
  | .str s =>
    if s.length < 32 then (0xa0 + s.length) :: s
    else if s.length < 0x100 then 0xd9 :: (natToBE 1 s.length ++ s)
    else if s.length < 0x10000 then 0xda :: (natToBE 2 s.length ++ s)
    else 0xdb :: (natToBE 4 s.length ++ s)
  | .bin b =>
    if b.length < 0x100 then 0xc4 :: (natToBE 1 b.length ++ b)
    else if b.length < 0x10000 then 0xc5 :: (natToBE 2 b.length ++ b)
    else 0xc6 :: (natToBE 4 b.length ++ b)
  | .arr l =>
    (if l.length < 16 then [0x90 + l.length]
     else if l.length < 0x10000 then 0xdc :: natToBE 2 l.length
     else 0xdd :: natToBE 4 l.length) ++ mpEncodeList l

/-- Concatenated encodings of a list of values (an array's body). -/
def mpEncodeList : List MsgVal → List Nat
  | [] => []
  | v :: vs => mpEncode v ++ mpEncodeList vs

end

mutual

/-- Fuelled MessagePack decoder.  One unit of fuel is spent per nesting
level, so any fuel above the value's depth suffices. -/
def mpDecodeF : Nat → List Nat → Option (MsgVal × List Nat)
  | 0, _ => none
  | _ + 1, [] => none
  | fuel + 1, hd :: bs =>
    if hd < 0x80 then some (.int hd, bs)
    else if hd < 0x90 then none
    else if hd < 0xa0 then
      (mpDecodeList fuel (hd - 0x90) bs).map fun p => (.arr p.1, p.2)
    else if hd < 0xc0 then
      (readN (hd - 0xa0) bs).map fun p => (.str p.1, p.2)
    else if hd = 0xc0 then some (.nil, bs)
    else if hd = 0xc2 then some (.bool false, bs)
    else if hd = 0xc3 then some (.bool true, bs)
    else if hd = 0xc4 then
      match readBE 1 bs with
      | some (len, rest) => (readN len rest).map fun p => (.bin p.1, p.2)
      | none => none
    else if hd = 0xc5 then
      match readBE 2 bs with
      | some (len, rest) => (readN len rest).map fun p => (.bin p.1, p.2)
      | none => none
    else if hd = 0xc6 then
      match readBE 4 bs with
      | some (len, rest) => (readN len rest).map fun p => (.bin p.1, p.2)
      | none => none
    else if hd = 0xcc then (readBE 1 bs).map fun p => (.int p.1, p.2)
    else if hd = 0xcd then (readBE 2 bs).map fun p => (.int p.1, p.2)
    else if hd = 0xce then (readBE 4 bs).map fun p => (.int p.1, p.2)
    else if hd = 0xcf then (readBE 8 bs).map fun p => (.int p.1, p.2)
    else if hd = 0xd0 then
      (readBE 1 bs).map fun p =>
        (.int (if p.1 < 0x80 then (p.1 : Int) else (p.1 : Int) - 0x100), p.2)
    else if hd = 0xd1 then
      (readBE 2 bs).map fun p =>
        (.int (if p.1 < 0x8000 then (p.1 : Int) else (p.1 : Int) - 0x10000), p.2)
    else if hd = 0xd2 then
      (readBE 4 bs).map fun p =>
        (.int (if p.1 < 0x80000000 then (p.1 : Int) else (p.1 : Int) - 0x100000000), p.2)
    else if hd = 0xd3 then
      (readBE 8 bs).map fun p =>
        (.int (if p.1 < 0x8000000000000000 then (p.1 : Int)
          else (p.1 : Int) - 0x10000000000000000), p.2)
    else if hd = 0xd9 then
      match readBE 1 bs with
      | some (len, rest) => (readN len rest).map fun p => (.str p.1, p.2)
      | none => none
    else if hd = 0xda then
      match readBE 2 bs with
      | some (len, rest) => (readN len rest).map fun p => (.str p.1, p.2)
      | none => none
    else if hd = 0xdb then
      match readBE 4 bs with
      | some (len, rest) => (readN len rest).map fun p => (.str p.1, p.2)
      | none => none
    else if hd = 0xdc then
      match readBE 2 bs with
      | some (len, rest) => (mpDecodeList fuel len rest).map fun p => (.arr p.1, p.2)
      | none => none
    else if hd = 0xdd then
      match readBE 4 bs with
      | some (len, rest) => (mpDecodeList fuel len rest).map fun p => (.arr p.1, p.2)
      | none => none
    else if 0xe0 ≤ hd ∧ hd < 0x100 then some (.int ((hd : Int) - 0x100), bs)
    else none

/-- Decode exactly `n` consecutive values (an array's body). -/
def mpDecodeList : Nat → Nat → List Nat → Option (List MsgVal × List Nat)
  | _, 0, bs => some ([], bs)
  | fuel, n + 1, bs =>
    match mpDecodeF fuel bs with
    | some (v, rest) => (mpDecodeList fuel n rest).map fun p => (v :: p.1, p.2)
    | none => none

end

/-- The library's `decode(bytes)`: decode one value and require the whole
input consumed (extra bytes raise, modelled as `none`). -/
def mpDecodeFull (bs : List Nat) : Option MsgVal :=
  match mpDecodeF (bs.length + 1) bs with
  | some (v, []) => some v
  | _ => none

mutual

/-- Nesting depth of a value: the decoder needs fuel above this depth. -/
def MsgVal.depth : MsgVal → Nat
  | .arr l => MsgVal.depthList l + 1
  | _ => 0

/-- Maximum depth over a list of values. -/
def MsgVal.depthList : List MsgVal → Nat
  | [] => 0
  | v :: vs => max (MsgVal.depth v) (MsgVal.depthList vs)

end

mutual

/-- Well-formed values: integers are JavaScript safe integers, byte
payloads have byte-sized elements, lengths fit the 32-bit headers. -/
def MsgVal.wfb : MsgVal → Bool
  | .nil => true
  | .bool _ => true
  | .int i => decide (-(2 ^ 53 : Int) < i) && decide (i < (2 ^ 53 : Int))
  | .str s => decide (s.length < 2 ^ 32) && s.all (· < 256)
  | .bin b => decide (b.length < 2 ^ 32) && b.all (· < 256)
  | .arr l => decide (l.length < 2 ^ 32) && MsgVal.wfbList l

/-- `wfb` over a list of values. -/
def MsgVal.wfbList : List MsgVal → Bool
  | [] => true
  | v :: vs => MsgVal.wfb v && MsgVal.wfbList vs

end

/-! ## Codec (`types.ts` message classes, `protocol.ts` serialize/deserialize)

Typed messages model the five message classes; `toTuple` mirrors each
class's `toTuple()`.  Decoding returns a `RawMessage` whose fields are raw
MessagePack values, because `createMessageFromTuple` casts tuple elements
(`tuple[1] as string`, …) without any runtime check. -/

/-- The five message classes with their constructor fields, in `toTuple`
order.  Wire strings are UTF-8 byte lists; numbers are integers. -/
inductive PMessage
  | hello (sessionId : List Nat) (sequenceNumber : Int) (partyType : Int)
      (protocolVersion : Int) (fileName : List Nat) (fileSize : Int)
      (mimeType : List Nat) (totalChunks : Int) (chunkSize : Int)
  | ack (sessionId : List Nat) (sequenceNumber : Int)
  | pull (sessionId : List Nat) (sequenceNumber : Int) (chunkIndex : Int)
  | data (sessionId : List Nat) (sequenceNumber : Int) (chunkIndex : Int)
      (nextChunkIndex : Int) (payload : List Nat)
  | error (errorType : Int)
deriving DecidableEq, Repr

/-- `message.toTuple()`: the positional tuple, tag first. -/
def PMessage.toTuple : PMessage → List MsgVal
  | .hello sid seq party ver name size mime total csize =>
      [.int 0, .str sid, .int seq, .int party, .int ver, .str name, .int size,
        .str mime, .int total, .int csize]
  | .ack sid seq => [.int 1, .str sid, .int seq]
  | .pull sid seq ci => [.int 2, .str sid, .int seq, .int ci]
  | .data sid seq ci nci payload =>
      [.int 3, .str sid, .int seq, .int ci, .int nci, .bin payload]
  | .error et => [.int 4, .int et]

/-- A decoded message: fields hold whatever MessagePack values were in the
tuple, mirroring the source's unchecked `as` casts. -/
inductive RawMessage
  | hello (sessionId sequenceNumber partyType protocolVersion fileName fileSize
      mimeType totalChunks chunkSize : MsgVal)
  | ack (sessionId sequenceNumber : MsgVal)
  | pull (sessionId sequenceNumber chunkIndex : MsgVal)
  | data (sessionId sequenceNumber chunkIndex nextChunkIndex payload : MsgVal)
  | error (errorType : MsgVal)

/-- JavaScript strict equality of a MessagePack value with a number
literal, as used by the `switch (messageType)` dispatch. -/
def MsgVal.isInt (v : MsgVal) (k : Int) : Bool :=
  match v with
  | .int i => i = k
  | _ => false

/-- `createMessageFromTuple(tuple)` (`types.ts`): reject a non-array or
empty value, dispatch on `tuple[0]` by strict equality with the
`MessageType` constants, check the tag's arity, and build the message from
the positional elements without type checks. -/
def createMessageFromTuple (tuple : MsgVal) : Except TransferError RawMessage :=
  match tuple with
  | .arr (tag :: rest) =>
    if tag.isInt 0 then
      if rest.length ≠ 9 then
        .error ⟨.protocolError, "HELLO message must have 10 fields"⟩
      else
        .ok (.hello (rest.getD 0 .nil) (rest.getD 1 .nil) (rest.getD 2 .nil)
          (rest.getD 3 .nil) (rest.getD 4 .nil) (rest.getD 5 .nil)
          (rest.getD 6 .nil) (rest.getD 7 .nil) (rest.getD 8 .nil))
    else if tag.isInt 1 then
      if rest.length ≠ 2 then
        .error ⟨.protocolError, "ACK message must have 3 fields"⟩
      else .ok (.ack (rest.getD 0 .nil) (rest.getD 1 .nil))
    else if tag.isInt 2 then
      if rest.length ≠ 3 then
        .error ⟨.protocolError, "PULL message must have 4 fields"⟩
      else .ok (.pull (rest.getD 0 .nil) (rest.getD 1 .nil) (rest.getD 2 .nil))
    else if tag.isInt 3 then
      if rest.length ≠ 5 then
        .error ⟨.protocolError, "DATA message must have 6 fields"⟩
      else .ok (.data (rest.getD 0 .nil) (rest.getD 1 .nil) (rest.getD 2 .nil)
        (rest.getD 3 .nil) (rest.getD 4 .nil))
    else if tag.isInt 4 then
      if rest.length ≠ 1 then
        .error ⟨.protocolError, "ERROR message must have 2 fields"⟩
      else .ok (.error (rest.getD 0 .nil))
    else .error ⟨.protocolError, "Unknown message type"⟩
  | .arr [] => .error ⟨.protocolError, "Invalid message tuple"⟩
  | _ => .error ⟨.protocolError, "Invalid message tuple"⟩

/-- `serializeMessage` (`protocol.ts`): tuple, MessagePack, base64. -/
def serializeMessage (message : PMessage) : String :=
  btoa (mpEncode (.arr message.toTuple))

/-- `deserializeMessage` (`protocol.ts`): base64, MessagePack, dispatch.
Every failure is a `TransferError` with code `PROTOCOL_ERROR`. -/
def deserializeMessage (text : String) : Except TransferError RawMessage :=
  match atob text with
  | none => .error ⟨.protocolError, "Failed to deserialize message"⟩
  | some bytes =>
    match mpDecodeFull bytes with
    | none => .error ⟨.protocolError, "Failed to deserialize message"⟩
    | some tuple =>
      match createMessageFromTuple tuple with
      | .ok m => .ok m
      | .error e =>
          .error ⟨.protocolError, "Failed to deserialize message: " ++ e.msg⟩

/-- The canonical embedding of a typed message into decoded form: every
field is carried over unchanged. -/
def PMessage.toRaw : PMessage → RawMessage
  | .hello sid seq party ver name size mime total csize =>
      .hello (.str sid) (.int seq) (.int party) (.int ver) (.str name)
        (.int size) (.str mime) (.int total) (.int csize)
  | .ack sid seq => .ack (.str sid) (.int seq)
  | .pull sid seq ci => .pull (.str sid) (.int seq) (.int ci)
  | .data sid seq ci nci payload =>
      .data (.str sid) (.int seq) (.int ci) (.int nci) (.bin payload)
  | .error et => .error (.int et)

/-- Well-formed message: every field a JavaScript-representable value
(safe integers, byte-valued string/payload elements, 32-bit lengths). -/
def PMessage.wfb (m : PMessage) : Bool := MsgVal.wfb (.arr m.toTuple)

/-- The arity `decode` demands for each known tag (`none` = unknown tag):
HELLO 10, ACK 3, PULL 4, DATA 6, ERROR 2, counting the tag itself. -/
def tagArity (tag : MsgVal) : Option Nat :=
  if tag.isInt 0 then some 10
  else if tag.isInt 1 then some 3
  else if tag.isInt 2 then some 4
  else if tag.isInt 3 then some 6
  else if tag.isInt 4 then some 2
  else none

/-! ## Engines (`file-storage.ts`: `FileSender`, `FileReceiver`)

Each engine is a state machine; its async methods are modelled as pure
functions from a state to a result carrying the new state, the frames
written (in order), the callback invocations / promise settlements
performed (in order, assuming all optional callbacks are provided and,
for the sender, the file object is present), and the error escaping the
method, if any.  `validateMessage` always succeeds on typed messages
(the arity and type it checks hold by construction), so it is not
modelled separately.  Best-effort storage writes (`storeFileChunks`,
`saveSenderSession`, `deleteFileChunks`) and logging are effects no claim
observes and are omitted. -/

/-- Callback invocations and promise settlements, in order. -/
inductive EngineEvent
  | onHandshake
  | onChunk (chunkIndex : Int)
  | onDone
  | onError (code : ErrorCode)
  | onProgress
  | resolve
  | reject (code : ErrorCode)
deriving DecidableEq, Repr

/-- `FileSender` mutable fields.  `chunkSizeOpt` is the constructor's
resolved `options.chunkSize ?? 64`; `hasPending` says
`currentResolve`/`currentReject` are non-null (they are set and cleared
together). -/
structure SenderS where
  state : TransferState
  sessionId : List Nat
  sequenceNumber : Nat
  chunks : List (List Nat)
  file : Option BFile
  fileName : List Nat
  fileSize : Nat
  mimeType : List Nat
  sentChunks : Int
  isListening : Bool
  hasPending : Bool
  isResumedSession : Bool
  chunkSizeOpt : Nat
deriving DecidableEq, Repr

/-- Result of one sender method: new state, frames written, events, and
the error escaping the method (a thrown `TransferError`). -/
structure SenderHR where
  s : SenderS
  writes : List PMessage
  events : List EngineEvent
  err : Option TransferError
deriving DecidableEq, Repr

/-- `ResumableSessionData` (`file-storage.ts`). -/
structure ResumableSessionData where
  sessionId : List Nat
  fileName : List Nat
  fileSize : Nat
  mimeType : List Nat
  totalChunks : Nat
  chunkSize : Nat
  chunks : List (List Nat)
  sentChunks : Int
deriving DecidableEq, Repr

/-- UTF-8 bytes of `'application/octet-stream'`. -/
def octetStreamMime : List Nat := [97, 112, 112, 108, 105, 99, 97, 116, 105, 111, 110, 47, 111, 99, 116, 101, 116, 45, 115, 116, 114, 101, 97, 109]

/-- 32-bit signed wrap (`hash & hash` / `<<` in JavaScript). -/
def toInt32 (n : Int) : Int := (n + 2 ^ 31).emod (2 ^ 32) - 2 ^ 31

/-- `generateSessionId(fileName, length)` (`protocol.ts`): a 32-bit
string hash mapped into `A–Z0–9` digits, right-padded with `A`. -/
def generateSessionId (fileName : List Nat) (length : Nat) : List Nat :=
  let hash := fileName.foldl (fun h c => toInt32 (toInt32 (h * 32) - h + c)) 0
  let chars : List Nat :=
    [65, 66, 67, 68, 69, 70, 71, 72, 73, 74, 75, 76, 77, 78, 79, 80, 81, 82,
      83, 84, 85, 86, 87, 88, 89, 90, 48, 49, 50, 51, 52, 53, 54, 55, 56, 57]
  let result := (List.range length).foldl
    (fun (acc : List Nat × Nat) _ =>
      (acc.1 ++ [chars.getD (acc.2 % 36) 65], acc.2 / 36))
    ([], hash.natAbs)
  result.1 ++ List.replicate (length - result.1.length) 65

/-- `completeTransfer()` (sender): DONE, stop listening, best-effort
chunk-store cleanup (not modelled), `done` event, resolve the future. -/
def FileSender.completeTransfer (s : SenderS) : SenderHR :=
  let s1 : SenderS := { s with state := .done, isListening := false, hasPending := false }
  ⟨s1, [], [EngineEvent.onDone] ++ (if s.hasPending then [EngineEvent.resolve] else []), none⟩

/-- `handleError(error)` (sender): the body that would transition to
ERROR, invoke `onError` and reject the future is commented out in the
source; only logging remains, so the state and events are untouched. -/
def FileSender.handleError (s : SenderS) (message : String) : SenderHR :=
  ⟨s, [], [], none⟩

/-- `handleAckMessage` (sender). -/
def FileSender.handleAckMessage (s : SenderS) (sessionId : List Nat) : SenderHR :=
  if sessionId ≠ s.sessionId then
    ⟨s, [], [], some ⟨.protocolError, "Session ID mismatch"⟩⟩
  else if s.state = .handshake then
    let responseAck := PMessage.ack s.sessionId s.sequenceNumber
    let s1 : SenderS := { s with state := .transfer, sequenceNumber := s.sequenceNumber + 1 }
    if s1.chunks.length = 0 then
      let r := FileSender.completeTransfer s1
      ⟨r.s, responseAck :: r.writes, EngineEvent.onHandshake :: r.events, r.err⟩
    else
      ⟨s1, [responseAck], [EngineEvent.onHandshake], none⟩
  else ⟨s, [], [], none⟩

/-- `handlePullMessage` (sender). -/
def FileSender.handlePullMessage (s : SenderS) (sessionId : List Nat)
    (chunkIndex : Int) : SenderHR :=
  if s.state ≠ .transfer then
    ⟨s, [], [], some ⟨.protocolError, "Not in transfer state"⟩⟩
  else if sessionId ≠ s.sessionId then
    ⟨s, [], [], some ⟨.protocolError, "Session ID mismatch"⟩⟩
  else if 0 ≤ chunkIndex ∧ chunkIndex < (s.chunks.length : Int) then
    let chunkData := s.chunks.getD chunkIndex.toNat []
    let nextChunkIndex : Int :=
      if chunkIndex + 1 < (s.chunks.length : Int) then chunkIndex + 1 else -1
    let s1 : SenderS := { s with sentChunks := chunkIndex }
    let events := [EngineEvent.onChunk chunkIndex, EngineEvent.onProgress]
    let dataMessage := PMessage.data s1.sessionId s1.sequenceNumber chunkIndex
      nextChunkIndex chunkData
    let s2 : SenderS := { s1 with sequenceNumber := s1.sequenceNumber + 1 }
    if nextChunkIndex = -1 then
      let r := FileSender.completeTransfer s2
      ⟨r.s, dataMessage :: r.writes, events ++ r.events, r.err⟩
    else
      ⟨s2, [dataMessage], events, none⟩
  else
    let dataMessage := PMessage.data s.sessionId s.sequenceNumber chunkIndex (-1) []
    let s2 : SenderS := { s with sequenceNumber := s.sequenceNumber + 1 }
    let r := FileSender.completeTransfer s2
    ⟨r.s, dataMessage :: r.writes, r.events, r.err⟩

/-- `handleErrorMessage` (sender): builds an INVALID_PARTY
`TransferError` and hands its message to `handleError` (which, per the
source, only logs). -/
def FileSender.handleErrorMessage (s : SenderS) (errorType : Int) : SenderHR :=
  FileSender.handleError s "Invalid party type detected"

/-- The `switch` inside `handleMessage` (sender): dispatch on the
message type; an unexpected type throws a ProtocolError. -/
def FileSender.dispatchMessage (s : SenderS) (m : PMessage) : SenderHR :=
  match m with
  | .ack sid _ => FileSender.handleAckMessage s sid
  | .pull sid _ ci => FileSender.handlePullMessage s sid ci
  | .error et => FileSender.handleErrorMessage s et
  | _ => ⟨s, [], [], some ⟨.protocolError, "Unexpected message type"⟩⟩

/-- `handleMessage` (sender), after `deserializeMessage` succeeded: run
the dispatch; its `try/catch` hands any thrown error to `handleError`. -/
def FileSender.handleMessage (s : SenderS) (m : PMessage) : SenderHR :=
  let r := FileSender.dispatchMessage s m
  match r.err with
  | none => r
  | some e =>
    let r2 := FileSender.handleError r.s e.msg
    ⟨r2.s, r.writes ++ r2.writes, r.events ++ r2.events, none⟩

/-- `startHandshake()` (sender): HANDSHAKE, start listening, write
`HELLO(sender, …)`. -/
def FileSender.startHandshake (s : SenderS) : SenderHR :=
  let s1 : SenderS := { s with state := .handshake, isListening := true }
  if s1.isResumedSession = false ∧ s1.file = none then
    ⟨s1, [], [], some ⟨.protocolError, "No file to send"⟩⟩
  else
    let fileName := if s1.isResumedSession then s1.fileName
      else ((s1.file.map BFile.name).getD [])
    let fileSize := if s1.isResumedSession then s1.fileSize
      else ((s1.file.map BFile.size).getD 0)
    let mimeType := if s1.isResumedSession then s1.mimeType
      else (if (s1.file.map BFile.mime).getD [] = [] then octetStreamMime
        else (s1.file.map BFile.mime).getD [])
    let hello := PMessage.hello s1.sessionId s1.sequenceNumber PartyType.SENDER
      ProtocolVersion.V0 fileName fileSize mimeType s1.chunks.length s1.chunkSizeOpt
    ⟨{ s1 with sequenceNumber := s1.sequenceNumber + 1 }, [hello], [], none⟩

/-- `send(file)` (sender): guard the IDLE state, set up the session
(session id from the file name, chunking, cursor reset), store chunks and
the initial snapshot (best effort, not modelled), register the promise,
and start the handshake. -/
def FileSender.send (s : SenderS) (file : BFile) : SenderHR :=
  if s.state ≠ .idle then
    ⟨s, [], [], some ⟨.protocolError, "Transfer already in progress"⟩⟩
  else
    let s1 : SenderS := { s with
      file := some file
      fileName := file.name
      fileSize := file.size
      mimeType := if file.mime = [] then octetStreamMime else file.mime
      sessionId := generateSessionId file.name 5
      chunks := chunkFile file.content s.chunkSizeOpt
      sentChunks := 0
      isResumedSession := false
      hasPending := true }
    FileSender.startHandshake s1

/-- `validateChunks(chunks, expectedFileSize, expectedChunkSize)`
(sender): non-empty, total size within one chunk of the declared size,
all non-last chunks exactly `expectedChunkSize`, last chunk no larger. -/
def FileSender.validateChunks (chunks : List (List Nat))
    (expectedFileSize expectedChunkSize : Nat) : Bool :=
  if chunks.length = 0 then false
  else
    let totalSize := (chunks.map List.length).sum
    if ((totalSize : Int) - (expectedFileSize : Int)).natAbs > expectedChunkSize then false
    else if chunks.dropLast.any (fun c => c.length ≠ expectedChunkSize) then false
    else if (chunks.getLastD []).length > expectedChunkSize then false
    else true

/-- `sendResumable(sessionData)` (sender): guard IDLE, validate the
stored chunks, then restore the session and start the handshake. -/
def FileSender.sendResumable (s : SenderS) (d : ResumableSessionData) : SenderHR :=
  if s.state ≠ .idle then
    ⟨s, [], [], some ⟨.protocolError, "Transfer already in progress"⟩⟩
  else if FileSender.validateChunks d.chunks d.fileSize d.chunkSize = false then
    ⟨s, [], [], some ⟨.protocolError, "Stored chunks failed integrity validation"⟩⟩
  else
    let s1 : SenderS := { s with
      sessionId := d.sessionId
      fileName := d.fileName
      fileSize := d.fileSize
      mimeType := d.mimeType
      chunks := d.chunks
      sentChunks := d.sentChunks
      isResumedSession := true
      file := none
      hasPending := true }
    FileSender.startHandshake s1

/-- `cancel()` (sender): CANCELLED, stop listening, clear (without
invoking) the pending promise callbacks; no event is emitted. -/
def FileSender.cancel (s : SenderS) : SenderHR :=
  ⟨{ s with state := .cancelled, isListening := false, hasPending := false }, [], [], none⟩

/-- `n` consecutive `cancel()` calls, accumulating frames and events. -/
def FileSender.cancelN : Nat → SenderS → SenderS × List PMessage × List EngineEvent
  | 0, s => (s, [], [])
  | n + 1, s =>
    let r := FileSender.cancel s
    let rest := FileSender.cancelN n r.s
    (rest.1, r.writes ++ rest.2.1, r.events ++ rest.2.2)

/-- `FileReceiver` mutable fields; `chunks` is the insertion-ordered
`Map` from chunk index to bytes. -/
structure ReceiverS where
  state : TransferState
  sessionId : List Nat
  sequenceNumber : Nat
  chunks : List (Int × List Nat)
  fileName : List Nat
  fileSize : Int
  mimeType : List Nat
  totalChunks : Int
  chunkSize : Int
  currentChunkIndex : Int
  isListening : Bool
  hasPending : Bool
deriving DecidableEq, Repr

/-- Result of one receiver method. -/
structure ReceiverHR where
  s : ReceiverS
  writes : List PMessage
  events : List EngineEvent
  err : Option TransferError
deriving DecidableEq, Repr

/-- `Map.set`: replace in place or append. -/
def mapSet (m : List (Int × List Nat)) (k : Int) (v : List Nat) : List (Int × List Nat) :=
  if m.any (fun p => p.1 = k) then
    m.map (fun p => if p.1 = k then (k, v) else p)
  else m ++ [(k, v)]

/-- `Map.get`. -/
def mapGet (m : List (Int × List Nat)) (k : Int) : Option (List Nat) :=
  (m.find? (fun p => p.1 = k)).map (fun p => p.2)

/-- `this.chunks.get(i)` for `i` in `[0, total)`, in ascending order;
`none` when a chunk is missing. -/
def orderedChunks (m : List (Int × List Nat)) (total : Int) : Option (List (List Nat)) :=
  (List.range total.toNat).mapM (fun i => mapGet m (i : Int))

/-- `completeTransfer()` (receiver): DONE, stop listening, verify the
chunk table, assemble, verify the size, emit `done` with the file, and
resolve the future; each verification failure throws `InvalidChunk`. -/
def FileReceiver.completeTransfer (s : ReceiverS) : ReceiverHR :=
  let s1 : ReceiverS := { s with state := .done, isListening := false }
  if (s1.chunks.length : Int) ≠ s1.totalChunks then
    ⟨s1, [], [], some ⟨.invalidChunk, "Missing chunks"⟩⟩
  else
    match orderedChunks s1.chunks s1.totalChunks with
    | none => ⟨s1, [], [], some ⟨.invalidChunk, "Missing chunk"⟩⟩
    | some ordered =>
      let file := assembleFile ordered s1.fileName s1.mimeType
      if (file.size : Int) ≠ s1.fileSize then
        ⟨s1, [], [], some ⟨.invalidChunk, "File size mismatch"⟩⟩
      else
        ⟨{ s1 with hasPending := false }, [],
          [EngineEvent.onDone] ++ (if s1.hasPending then [EngineEvent.resolve] else []), none⟩

/-- `handleError` (receiver): body commented out in the source; only
logging remains. -/
def FileReceiver.handleError (s : ReceiverS) (message : String) : ReceiverHR :=
  ⟨s, [], [], none⟩

/-- `handleHelloMessage` (receiver): ignore outside HANDSHAKE; a
`party=receiver` HELLO is a collision (write ERROR(INVALID_PARTY), then
throw InvalidParty); reject wrong party or protocol version; otherwise
capture the metadata, ACK, and emit `handshake`. -/
def FileReceiver.handleHelloMessage (s : ReceiverS) (sessionId : List Nat)
    (partyType protocolVersion : Int) (fileName : List Nat) (fileSize : Int)
    (mimeType : List Nat) (totalChunks chunkSize : Int) : ReceiverHR :=
  if s.state ≠ .handshake then ⟨s, [], [], none⟩
  else if partyType = PartyType.RECEIVER then
    ⟨s, [PMessage.error ErrorType.INVALID_PARTY], [],
      some ⟨.invalidParty, "Another receiver detected"⟩⟩
  else if partyType ≠ PartyType.SENDER then
    ⟨s, [], [], some ⟨.invalidParty, "Expected sender party type"⟩⟩
  else if protocolVersion ≠ ProtocolVersion.V0 then
    ⟨s, [], [], some ⟨.protocolError, "Unsupported protocol version"⟩⟩
  else
    let s1 : ReceiverS := { s with
      sessionId := sessionId
      fileName := fileName
      fileSize := fileSize
      mimeType := mimeType
      totalChunks := totalChunks
      chunkSize := chunkSize }
    let ack := PMessage.ack s1.sessionId s1.sequenceNumber
    ⟨{ s1 with sequenceNumber := s1.sequenceNumber + 1 }, [ack],
      [EngineEvent.onHandshake], none⟩

/-- `requestNextChunk` (receiver). -/
def FileReceiver.requestNextChunk (s : ReceiverS) : ReceiverHR :=
  if s.currentChunkIndex ≥ s.totalChunks then ⟨s, [], [], none⟩
  else
    let pull := PMessage.pull s.sessionId s.sequenceNumber s.currentChunkIndex
    ⟨{ s with sequenceNumber := s.sequenceNumber + 1 }, [pull], [], none⟩

/-- `handleAckMessage` (receiver). -/
def FileReceiver.handleAckMessage (s : ReceiverS) (sessionId : List Nat) : ReceiverHR :=
  if sessionId ≠ s.sessionId then
    ⟨s, [], [], some ⟨.protocolError, "Session ID mismatch"⟩⟩
  else if s.state = .handshake then
    let s1 : ReceiverS := { s with state := .transfer, currentChunkIndex := 0 }
    if s1.totalChunks = 0 then FileReceiver.completeTransfer s1
    else FileReceiver.requestNextChunk s1
  else ⟨s, [], [], none⟩

/-- `handleDataMessage` (receiver). -/
def FileReceiver.handleDataMessage (s : ReceiverS) (sessionId : List Nat)
    (chunkIndex nextChunkIndex : Int) (data : List Nat) : ReceiverHR :=
  if s.state ≠ .transfer then
    ⟨s, [], [], some ⟨.protocolError, "Not in transfer state"⟩⟩
  else if sessionId ≠ s.sessionId then
    ⟨s, [], [], some ⟨.protocolError, "Session ID mismatch"⟩⟩
  else if chunkIndex < 0 ∨ chunkIndex ≥ s.totalChunks ∨ data.length = 0 then
    ⟨s, [], [], some ⟨.invalidChunk, "Invalid chunk index"⟩⟩
  else
    let s1 : ReceiverS := { s with chunks := mapSet s.chunks chunkIndex data }
    let events := [EngineEvent.onChunk chunkIndex, EngineEvent.onProgress]
    if nextChunkIndex = -1 then
      let r := FileReceiver.completeTransfer s1
      ⟨r.s, r.writes, events ++ r.events, r.err⟩
    else
      let s2 : ReceiverS := { s1 with currentChunkIndex := nextChunkIndex }
      let r := FileReceiver.requestNextChunk s2
      ⟨r.s, r.writes, events ++ r.events, r.err⟩

/-- `handleErrorMessage` (receiver). -/
def FileReceiver.handleErrorMessage (s : ReceiverS) (errorType : Int) : ReceiverHR :=
  FileReceiver.handleError s "Invalid party type detected"

/-- The `switch` inside `handleMessage` (receiver). -/
def FileReceiver.dispatchMessage (s : ReceiverS) (m : PMessage) : ReceiverHR :=
  match m with
  | .hello sid _ party ver name size mime total csize =>
      FileReceiver.handleHelloMessage s sid party ver name size mime total csize
  | .ack sid _ => FileReceiver.handleAckMessage s sid
  | .data sid _ ci nci payload => FileReceiver.handleDataMessage s sid ci nci payload
  | .error et => FileReceiver.handleErrorMessage s et
  | .pull _ _ _ => ⟨s, [], [], some ⟨.protocolError, "Unexpected message type"⟩⟩

/-- `handleMessage` (receiver), after `deserializeMessage` succeeded: run
the dispatch; its `try/catch` hands any thrown error to `handleError`. -/
def FileReceiver.handleMessage (s : ReceiverS) (m : PMessage) : ReceiverHR :=
  let r := FileReceiver.dispatchMessage s m
  match r.err with
  | none => r
  | some e =>
    let r2 := FileReceiver.handleError r.s e.msg
    ⟨r2.s, r.writes ++ r2.writes, r.events ++ r2.events, none⟩

/-- `receive()` (receiver): guard IDLE, reset the chunk table and cursor,
register the promise, then `startScanning` (HANDSHAKE + listen). -/
def FileReceiver.receive (s : ReceiverS) : ReceiverHR :=
  if s.state ≠ .idle then
    ⟨s, [], [], some ⟨.protocolError, "Reception already in progress"⟩⟩
  else
    let s1 : ReceiverS := { s with
      chunks := []
      currentChunkIndex := 0
      hasPending := true
      state := .handshake
      isListening := true }
    ⟨s1, [], [], none⟩

/-- `cancel()` (receiver). -/
def FileReceiver.cancel (s : ReceiverS) : ReceiverHR :=
  ⟨{ s with state := .cancelled, isListening := false, hasPending := false }, [], [], none⟩

/-- `n` consecutive receiver `cancel()` calls. -/
def FileReceiver.cancelN : Nat → ReceiverS → ReceiverS × List PMessage × List EngineEvent
  | 0, s => (s, [], [])
  | n + 1, s =>
    let r := FileReceiver.cancel s
    let rest := FileReceiver.cancelN n r.s
    (rest.1, r.writes ++ rest.2.1, r.events ++ rest.2.2)

/-! ## ChunkStore eviction (`file-storage.ts`: `IndexedFileStorage.cleanupOldFiles`) -/

/-- One stored record (`StoredFileData`). -/
structure StoredFileData where
  fileName : List Nat
  fileSize : Nat
  mimeType : List Nat
  totalChunks : Nat
  chunkSize : Nat
  chunks : List (List Nat)
  createdAt : Nat
  lastAccessedAt : Nat
deriving DecidableEq, Repr

/-- `cleanupOldFiles` options; `none` selects the default. -/
structure CleanupOptions where
  maxAgeMs : Option Nat
  maxFiles : Option Nat
deriving DecidableEq, Repr

/-- The comparator order `(a, b) => a.lastAccessedAt - b.lastAccessedAt`
used by the source's stable `Array.prototype.sort`. -/
def accessLe (a b : StoredFileData) : Prop := a.lastAccessedAt ≤ b.lastAccessedAt

instance : DecidableRel accessLe := fun a b => Nat.decLe _ _

/-- `cleanupOldFiles(options)`: the file names deleted.  Defaults
`maxAgeMs = 7 days`, `maxFiles = 1`; a `maxFiles` of `0` is falsy in the
source and disables count-based eviction.  Entries strictly older than
`now - maxAgeMs` are deleted; if the store holds more than `maxFiles`
entries, the oldest-accessed beyond that count are deleted as well. -/
def cleanupOldFiles (files : List StoredFileData) (now : Nat)
    (options : CleanupOptions) : List (List Nat) :=
  let maxAgeMs := options.maxAgeMs.getD (7 * 24 * 60 * 60 * 1000)
  let maxFiles := options.maxFiles.getD 1
  let cutoffTime := now - maxAgeMs
  let sorted := List.insertionSort accessLe files
  let stale := (sorted.filter (fun f => f.lastAccessedAt < cutoffTime)).map
    (fun f => f.fileName)
  if maxFiles ≠ 0 ∧ sorted.length > maxFiles then
    stale ++ (((sorted.take (sorted.length - maxFiles)).map (fun f => f.fileName)).filter
      (fun n => n ∉ stale))
  else stale

/-- The store contents after `cleanupOldFiles` (deletion is by key). -/
def cleanupRemaining (files : List StoredFileData) (now : Nat)
    (options : CleanupOptions) : List StoredFileData :=
  files.filter (fun f => f.fileName ∉ cleanupOldFiles files now options)

/-- The eviction procedure as the spec words it: delete entries whose
`last_accessed_at` is older than `now - max_age_ms`; then, if
`max_entries` is set and the remaining count still exceeds it, delete
oldest-accessed entries first until the count is within the limit. -/
def specEvictRemaining (files : List StoredFileData) (now : Nat)
    (options : CleanupOptions) : List StoredFileData :=
  let maxAgeMs := options.maxAgeMs.getD (7 * 24 * 60 * 60 * 1000)
  let maxEntries := options.maxFiles.getD 1
  let cutoffTime := now - maxAgeMs
  let sorted := List.insertionSort accessLe files
  let fresh := sorted.filter (fun f => ¬ f.lastAccessedAt < cutoffTime)
  if fresh.length > maxEntries then fresh.drop (fresh.length - maxEntries) else fresh

/-- `accessLe` is total (comparator sorts are total preorders). -/
instance : IsTotal StoredFileData accessLe := ⟨fun a b => Nat.le_total _ _⟩

/-- `accessLe` is transitive. -/
instance : IsTrans StoredFileData accessLe := ⟨fun _ _ _ => Nat.le_trans⟩

/-! ## Definitions continue below; all theorems follow the definitions. -/

/-! ## Theorems -/

theorem natToBE_length (k n : Nat) : (natToBE k n).length = k := by
  induction k generalizing n with
  | zero => rfl
  | succ k ih => simp [natToBE, ih]

theorem beToNat_append (xs : List Nat) (b : Nat) :
    beToNat (xs ++ [b]) = beToNat xs * 256 + b := by
  simp [beToNat, List.foldl_append]

theorem beToNat_natToBE (k n : Nat) (h : n < 256 ^ k) : beToNat (natToBE k n) = n := by
  induction k generalizing n with
  | zero =>
    have h0 : n = 0 := by simpa using h
    simp [h0, natToBE, beToNat]
  | succ k ih =>
    have hdiv : n / 256 < 256 ^ k := by
      rw [Nat.div_lt_iff_lt_mul (by norm_num)]
      rw [Nat.pow_succ] at h
      exact h
    rw [natToBE, beToNat_append, ih (n / 256) hdiv]
    omega

theorem readN_exact (s rest : List Nat) : readN s.length (s ++ rest) = some (s, rest) := by
  unfold readN
  rw [if_neg (by simp)]
  rw [List.take_left, List.drop_left]

theorem readBE_natToBE (k n : Nat) (rest : List Nat) (h : n < 256 ^ k) :
    readBE k (natToBE k n ++ rest) = some (n, rest) := by
  have htake : ∀ s : List Nat, s.length = k → (s ++ rest).take k = s := by
    intro s hs
    rw [← hs, List.take_left]
  have hdrop : ∀ s : List Nat, s.length = k → (s ++ rest).drop k = rest := by
    intro s hs
    rw [← hs, List.drop_left]
  unfold readBE
  rw [if_neg (by simp [natToBE_length]), htake _ (natToBE_length k n),
    hdrop _ (natToBE_length k n), beToNat_natToBE k n h]

theorem mpDecodeF_posfixint (fuel hd : Nat) (bs : List Nat) (h : hd < 0x80) :
    mpDecodeF (fuel + 1) (hd :: bs) = some (.int hd, bs) := by
  simp only [mpDecodeF]
  rw [if_pos h]

theorem mpDecodeF_negfixint (fuel hd : Nat) (bs : List Nat) (h1 : 0xe0 ≤ hd) (h2 : hd < 0x100) :
    mpDecodeF (fuel + 1) (hd :: bs) = some (.int ((hd : Int) - 0x100), bs) := by
  simp only [mpDecodeF]
  repeat rw [if_neg (by omega)]
  rw [if_pos ⟨h1, h2⟩]

theorem mpDecodeF_fixstr (fuel : Nat) (s tail : List Nat) (h : s.length < 32) :
    mpDecodeF (fuel + 1) ((0xa0 + s.length) :: (s ++ tail)) = some (.str s, tail) := by
  simp only [mpDecodeF]
  rw [if_neg (by omega), if_neg (by omega), if_neg (by omega), if_pos (by omega)]
  rw [show 0xa0 + s.length - 0xa0 = s.length by omega, readN_exact]
  rfl

theorem mpDecodeF_fixarr (fuel len : Nat) (bs : List Nat) (h : len < 16) :
    mpDecodeF (fuel + 1) ((0x90 + len) :: bs) =
      (mpDecodeList fuel len bs).map fun p => (.arr p.1, p.2) := by
  simp only [mpDecodeF]
  rw [if_neg (by omega), if_neg (by omega), if_pos (by omega)]
  rw [show 0x90 + len - 0x90 = len by omega]

theorem mpDecodeF_encode_int (i : Int) (fuel : Nat) (rest : List Nat)
    (h1 : -(2 ^ 53 : Int) < i) (h2 : i < (2 ^ 53 : Int)) :
    mpDecodeF (fuel + 1) (mpEncode (.int i) ++ rest) = some (.int i, rest) := by
  rw [mpEncode]
  by_cases hpos : 0 ≤ i
  · rw [if_pos hpos]
    by_cases b1 : i.toNat < 0x80
    · rw [if_pos b1, List.cons_append, List.nil_append,
        mpDecodeF_posfixint fuel _ rest b1]
      rw [show ((i.toNat : Nat) : Int) = i from Int.toNat_of_nonneg hpos]
    · rw [if_neg b1]
      by_cases b2 : i.toNat < 0x100
      · rw [if_pos b2, List.cons_append]
        simp only [mpDecodeF]
        norm_num [-Int.ofNat_toNat]
        rw [readBE_natToBE 1 _ rest (by norm_num [-Int.ofNat_toNat]; omega)]
        exact ⟨i.toNat, rfl, Int.toNat_of_nonneg hpos⟩
      · rw [if_neg b2]
        by_cases b3 : i.toNat < 0x10000
        · rw [if_pos b3, List.cons_append]
          simp only [mpDecodeF]
          norm_num [-Int.ofNat_toNat]
          rw [readBE_natToBE 2 _ rest (by norm_num [-Int.ofNat_toNat]; omega)]
          exact ⟨i.toNat, rfl, Int.toNat_of_nonneg hpos⟩
        · rw [if_neg b3]
          by_cases b4 : i.toNat < 0x100000000
          · rw [if_pos b4, List.cons_append]
            simp only [mpDecodeF]
            norm_num [-Int.ofNat_toNat]
            rw [readBE_natToBE 4 _ rest (by norm_num [-Int.ofNat_toNat]; omega)]
            exact ⟨i.toNat, rfl, Int.toNat_of_nonneg hpos⟩
          · rw [if_neg b4, List.cons_append]
            simp only [mpDecodeF]
            norm_num [-Int.ofNat_toNat]
            rw [readBE_natToBE 8 _ rest (by norm_num [-Int.ofNat_toNat]; omega)]
            exact ⟨i.toNat, rfl, Int.toNat_of_nonneg hpos⟩
  · rw [if_neg hpos]
    by_cases c1 : -0x20 ≤ i
    · rw [if_pos c1, List.cons_append, List.nil_append,
        mpDecodeF_negfixint fuel _ rest (by omega) (by omega)]
      rw [show (((i + 0x100).toNat : Nat) : Int) - 0x100 = i by omega]
    · rw [if_neg c1]
      by_cases c2 : -0x80 ≤ i
      · rw [if_pos c2, List.cons_append]
        simp only [mpDecodeF]
        norm_num [-Int.ofNat_toNat]
        rw [readBE_natToBE 1 _ rest (by norm_num [-Int.ofNat_toNat]; omega)]
        refine ⟨(i + 0x100).toNat, rfl, ?_⟩
        rw [if_neg (by omega)]
        omega
      · rw [if_neg c2]
        by_cases c3 : -0x8000 ≤ i
        · rw [if_pos c3, List.cons_append]
          simp only [mpDecodeF]
          norm_num [-Int.ofNat_toNat]
          rw [readBE_natToBE 2 _ rest (by norm_num [-Int.ofNat_toNat]; omega)]
          refine ⟨(i + 0x10000).toNat, rfl, ?_⟩
          rw [if_neg (by omega)]
          omega
        · rw [if_neg c3]
          by_cases c4 : -0x80000000 ≤ i
          · rw [if_pos c4, List.cons_append]
            simp only [mpDecodeF]
            norm_num [-Int.ofNat_toNat]
            rw [readBE_natToBE 4 _ rest (by norm_num [-Int.ofNat_toNat]; omega)]
            refine ⟨(i + 0x100000000).toNat, rfl, ?_⟩
            rw [if_neg (by omega)]
            omega
          · rw [if_neg c4, List.cons_append]
            simp only [mpDecodeF]
            norm_num [-Int.ofNat_toNat]
            rw [readBE_natToBE 8 _ rest (by norm_num [-Int.ofNat_toNat]; omega)]
            refine ⟨(i + 0x10000000000000000).toNat, rfl, ?_⟩
            rw [if_neg (by omega)]
            omega

theorem mpDecodeF_encode_str (s : List Nat) (fuel : Nat) (rest : List Nat)
    (h : s.length < 2 ^ 32) :
    mpDecodeF (fuel + 1) (mpEncode (.str s) ++ rest) = some (.str s, rest) := by
  rw [mpEncode]
  by_cases b1 : s.length < 32
  · rw [if_pos b1, List.cons_append, mpDecodeF_fixstr fuel s rest b1]
  · rw [if_neg b1]
    by_cases b2 : s.length < 0x100
    · rw [if_pos b2, List.cons_append, List.append_assoc]
      simp only [mpDecodeF]
      norm_num
      rw [readBE_natToBE 1 _ (s ++ rest) (by norm_num; omega)]
      simp [readN_exact]
    · rw [if_neg b2]
      by_cases b3 : s.length < 0x10000
      · rw [if_pos b3, List.cons_append, List.append_assoc]
        simp only [mpDecodeF]
        norm_num
        rw [readBE_natToBE 2 _ (s ++ rest) (by norm_num; omega)]
        simp [readN_exact]
      · rw [if_neg b3, List.cons_append, List.append_assoc]
        simp only [mpDecodeF]
        norm_num
        rw [readBE_natToBE 4 _ (s ++ rest) (by norm_num; omega)]
        simp [readN_exact]

theorem mpDecodeF_encode_bin (b : List Nat) (fuel : Nat) (rest : List Nat)
    (h : b.length < 2 ^ 32) :
    mpDecodeF (fuel + 1) (mpEncode (.bin b) ++ rest) = some (.bin b, rest) := by
  rw [mpEncode]
  by_cases b1 : b.length < 0x100
  · rw [if_pos b1, List.cons_append, List.append_assoc]
    simp only [mpDecodeF]
    norm_num
    rw [readBE_natToBE 1 _ (b ++ rest) (by norm_num; omega)]
    simp [readN_exact]
  · rw [if_neg b1]
    by_cases b2 : b.length < 0x10000
    · rw [if_pos b2, List.cons_append, List.append_assoc]
      simp only [mpDecodeF]
      norm_num
      rw [readBE_natToBE 2 _ (b ++ rest) (by norm_num; omega)]
      simp [readN_exact]
    · rw [if_neg b2, List.cons_append, List.append_assoc]
      simp only [mpDecodeF]
      norm_num
      rw [readBE_natToBE 4 _ (b ++ rest) (by norm_num; omega)]
      simp [readN_exact]

theorem mpDecodeF_encode_scalar (v : MsgVal) (fuel : Nat) (rest : List Nat)
    (hwf : MsgVal.wfb v = true) (hnotarr : ∀ l, v ≠ .arr l) :
    mpDecodeF (fuel + 1) (mpEncode v ++ rest) = some (v, rest) := by
  cases v with
  | nil => simp [mpEncode, mpDecodeF]
  | bool b => cases b <;> simp [mpEncode, mpDecodeF]
  | int i =>
    rw [MsgVal.wfb] at hwf
    simp only [Bool.and_eq_true, decide_eq_true_eq] at hwf
    exact mpDecodeF_encode_int i fuel rest hwf.1 hwf.2
  | str s =>
    rw [MsgVal.wfb] at hwf
    simp only [Bool.and_eq_true, decide_eq_true_eq] at hwf
    exact mpDecodeF_encode_str s fuel rest hwf.1
  | bin b =>
    rw [MsgVal.wfb] at hwf
    simp only [Bool.and_eq_true, decide_eq_true_eq] at hwf
    exact mpDecodeF_encode_bin b fuel rest hwf.1
  | arr l => exact absurd rfl (hnotarr l)


theorem b64Val_b64Char (n : Nat) (h : n < 64) : b64Val (b64Char n) = some n := by
  interval_cases n <;> decide

theorem b64Char_ne_eq (n : Nat) (h : n < 64) : b64Char n ≠ '=' := by
  interval_cases n <;> decide

/-- Base64 round trip: decoding an encoded byte list returns it. -/
theorem b64DecodeChars_b64EncodeBytes (bs : List Nat) (h : ∀ b ∈ bs, b < 256) :
    b64DecodeChars (b64EncodeBytes bs) = some bs := by
  induction bs using b64EncodeBytes.induct with
  | case1 => rfl
  | case2 a =>
    have ha : a < 256 := h a (by simp)
    have h1 : b64Val (b64Char (a / 4)) = some (a / 4) := b64Val_b64Char _ (by omega)
    have h2 : b64Val (b64Char (a % 4 * 16)) = some (a % 4 * 16) := b64Val_b64Char _ (by omega)
    rw [b64EncodeBytes, b64DecodeChars]
    simp [h1, h2]
    omega
  | case3 a b =>
    have ha : a < 256 := h a (by simp)
    have hb : b < 256 := h b (by simp)
    have h1 : b64Val (b64Char (a / 4)) = some (a / 4) := b64Val_b64Char _ (by omega)
    have h2 : b64Val (b64Char (a % 4 * 16 + b / 16)) = some (a % 4 * 16 + b / 16) :=
      b64Val_b64Char _ (by omega)
    have h3 : b64Val (b64Char (b % 16 * 4)) = some (b % 16 * 4) := b64Val_b64Char _ (by omega)
    have hne : b64Char (b % 16 * 4) ≠ '=' := b64Char_ne_eq _ (by omega)
    rw [b64EncodeBytes, b64DecodeChars]
    simp [h1, h2, h3, hne]
    omega
  | case4 a b c rest ih =>
    have ha : a < 256 := h a (by simp)
    have hb : b < 256 := h b (by simp)
    have hc : c < 256 := h c (by simp)
    have hrest : ∀ x ∈ rest, x < 256 := fun x hx => h x (by simp [hx])
    have h1 : b64Val (b64Char (a / 4)) = some (a / 4) := b64Val_b64Char _ (by omega)
    have h2 : b64Val (b64Char (a % 4 * 16 + b / 16)) = some (a % 4 * 16 + b / 16) :=
      b64Val_b64Char _ (by omega)
    have h3 : b64Val (b64Char (b % 16 * 4 + c / 64)) = some (b % 16 * 4 + c / 64) :=
      b64Val_b64Char _ (by omega)
    have h4 : b64Val (b64Char (c % 64)) = some (c % 64) := b64Val_b64Char _ (by omega)
    have hne3 : b64Char (b % 16 * 4 + c / 64) ≠ '=' := b64Char_ne_eq _ (by omega)
    have hne4 : b64Char (c % 64) ≠ '=' := b64Char_ne_eq _ (by omega)
    rw [b64EncodeBytes, b64DecodeChars]
    simp [h1, h2, h3, h4, hne3, hne4, ih hrest]
    omega

/-- String-level base64 round trip. -/
theorem atob_btoa (bs : List Nat) (h : ∀ b ∈ bs, b < 256) : atob (btoa bs) = some bs :=
  b64DecodeChars_b64EncodeBytes bs h


theorem chunkFile_nil (s : Nat) : chunkFile [] s = [] := by
  rw [chunkFile]; simp

theorem chunkFile_cons (content : List Nat) (s : Nat) (hs : s ≠ 0) (hc : content ≠ []) :
    chunkFile content s = content.take s :: chunkFile (content.drop s) s := by
  rw [chunkFile]; simp [hs, hc]

/-- Reassembly: concatenating the chunks gives back the input bytes. -/
theorem join_chunkFile (content : List Nat) (s : Nat) (hs : 1 ≤ s) :
    (chunkFile content s).flatten = content := by
  revert hs
  induction content, s using chunkFile.induct with
  | case1 c s h =>
    intro hs
    rcases h with h | h
    · omega
    · subst h; simp [chunkFile_nil]
  | case2 c s h ih =>
    intro hs
    push_neg at h
    rw [chunkFile_cons c s h.1 h.2]
    simp [ih hs, List.take_append_drop]

/-- Chunk count: `⌈len / s⌉`, written `(len + s - 1) / s` over `Nat`. -/
theorem length_chunkFile (content : List Nat) (s : Nat) (hs : 1 ≤ s) :
    (chunkFile content s).length = (content.length + s - 1) / s := by
  revert hs
  induction content, s using chunkFile.induct with
  | case1 c s h =>
    intro hs
    rcases h with h | h
    · omega
    · subst h
      simp only [chunkFile_nil, List.length_nil, Nat.zero_add, List.length_nil]
      rw [Nat.div_eq_of_lt (by omega)]
  | case2 c s h ih =>
    intro hs
    replace ih := ih hs
    push_neg at h
    rw [chunkFile_cons c s h.1 h.2]
    have hlen : c.length ≠ 0 := fun hl => h.2 (List.length_eq_zero.mp hl)
    simp only [List.length_cons, ih, List.length_drop]
    rcases Nat.lt_or_ge c.length s with hlt | hle
    · have h1 : c.length - s = 0 := by omega
      rw [h1]
      have : (c.length + s - 1) / s = 1 := by
        apply Nat.div_eq_of_lt_le <;> omega
      simp only [this, Nat.zero_add, Nat.add_left_eq_self]
      rw [Nat.div_eq_of_lt (by omega)]
    · have h2 : c.length - s + s - 1 = c.length - 1 := by omega
      have h3 : c.length + s - 1 = c.length - 1 + s := by omega
      rw [h2, h3, Nat.add_div_right _ (by omega)]

/-- Every chunk except possibly the last has length exactly `s`. -/
theorem length_mem_dropLast_chunkFile (content : List Nat) (s : Nat) (hs : 1 ≤ s)
    (c : List Nat) (hc : c ∈ (chunkFile content s).dropLast) : c.length = s := by
  revert hs hc
  induction content, s using chunkFile.induct with
  | case1 cc s h =>
    intro hs hc
    rcases h with h | h
    · omega
    · rw [h, chunkFile_nil] at hc
      simp at hc
  | case2 cc s h ih =>
    intro hs hc
    push_neg at h
    rw [chunkFile_cons cc s h.1 h.2] at hc
    by_cases hrest : chunkFile (cc.drop s) s = []
    · simp [hrest] at hc
    · rw [List.dropLast_cons_of_ne_nil hrest] at hc
      rcases List.mem_cons.mp hc with rfl | hmem
      · -- the head chunk: the remainder is nonempty, so `cc.length > s`
        have hdrop : cc.drop s ≠ [] := by
          intro hd
          rw [hd, chunkFile_nil] at hrest
          exact hrest rfl
        have : s < cc.length := by
          by_contra hle
          push_neg at hle
          exact hdrop (List.drop_eq_nil_of_le hle)
        simp [List.length_take]
        omega
      · exact ih hs hmem

mutual

theorem MsgVal.depth_le_encode : ∀ (v : MsgVal), MsgVal.depth v ≤ (mpEncode v).length
  | .nil => by simp [MsgVal.depth]
  | .bool b => by simp [MsgVal.depth]
  | .int i => by simp [MsgVal.depth]
  | .str s => by simp [MsgVal.depth]
  | .bin b => by simp [MsgVal.depth]
  | .arr l => by
    have hl := MsgVal.depthList_le_encodeList l
    rw [MsgVal.depth, mpEncode]
    simp only [List.length_append]
    have hh : 1 ≤ (if l.length < 16 then [0x90 + l.length]
        else if l.length < 0x10000 then 0xdc :: natToBE 2 l.length
        else 0xdd :: natToBE 4 l.length).length := by
      split_ifs <;> simp
    omega

theorem MsgVal.depthList_le_encodeList : ∀ (l : List MsgVal),
    MsgVal.depthList l ≤ (mpEncodeList l).length
  | [] => by simp [MsgVal.depthList, mpEncodeList]
  | v :: vs => by
    have h1 := MsgVal.depth_le_encode v
    have h2 := MsgVal.depthList_le_encodeList vs
    rw [MsgVal.depthList, mpEncodeList]
    simp only [List.length_append]
    omega

end

/-- Decoding an encoding, with any fuel above the value's depth, returns the
value and the unconsumed tail; similarly for array bodies. -/
theorem mpDecode_mpEncode_aux (fuel : Nat) :
    (∀ (v : MsgVal) (rest : List Nat), MsgVal.wfb v = true → MsgVal.depth v < fuel →
      mpDecodeF fuel (mpEncode v ++ rest) = some (v, rest)) ∧
    (∀ (l : List MsgVal) (rest : List Nat), MsgVal.wfbList l = true →
      MsgVal.depthList l < fuel →
      mpDecodeList fuel l.length (mpEncodeList l ++ rest) = some (l, rest)) := by
  induction fuel with
  | zero => exact ⟨fun v rest _ h => absurd h (by omega), fun l rest _ h => absurd h (by omega)⟩
  | succ fuel ih =>
    have hP : ∀ (v : MsgVal) (rest : List Nat), MsgVal.wfb v = true →
        MsgVal.depth v < fuel + 1 →
        mpDecodeF (fuel + 1) (mpEncode v ++ rest) = some (v, rest) := by
      intro v rest hwf hd
      match v with
      | .nil => exact mpDecodeF_encode_scalar _ fuel rest hwf (fun l h => MsgVal.noConfusion h)
      | .bool b => exact mpDecodeF_encode_scalar _ fuel rest hwf (fun l h => MsgVal.noConfusion h)
      | .int i => exact mpDecodeF_encode_scalar _ fuel rest hwf (fun l h => MsgVal.noConfusion h)
      | .str s => exact mpDecodeF_encode_scalar _ fuel rest hwf (fun l h => MsgVal.noConfusion h)
      | .bin b => exact mpDecodeF_encode_scalar _ fuel rest hwf (fun l h => MsgVal.noConfusion h)
      | .arr l =>
        rw [MsgVal.wfb] at hwf
        simp only [Bool.and_eq_true, decide_eq_true_eq] at hwf
        obtain ⟨hlen, hwfl⟩ := hwf
        rw [MsgVal.depth] at hd
        have hdl : MsgVal.depthList l < fuel := by omega
        have hQ := ih.2 l rest hwfl hdl
        rw [mpEncode]
        by_cases a1 : l.length < 16
        · rw [if_pos a1, List.append_assoc, List.singleton_append,
            mpDecodeF_fixarr fuel l.length _ a1, hQ]
          rfl
        · rw [if_neg a1]
          by_cases a2 : l.length < 0x10000
          · rw [if_pos a2, List.append_assoc, List.cons_append]
            simp only [mpDecodeF]
            norm_num
            rw [readBE_natToBE 2 l.length _ (by norm_num; omega)]
            simp [hQ]
          · rw [if_neg a2, List.append_assoc, List.cons_append]
            simp only [mpDecodeF]
            norm_num
            rw [readBE_natToBE 4 l.length _ (by norm_num; omega)]
            simp [hQ]
    have hQ1 : ∀ (l : List MsgVal) (rest : List Nat), MsgVal.wfbList l = true →
        MsgVal.depthList l < fuel + 1 →
        mpDecodeList (fuel + 1) l.length (mpEncodeList l ++ rest) = some (l, rest) := by
      intro l
      induction l with
      | nil => intro rest _ _; simp [mpEncodeList, mpDecodeList]
      | cons v vs ihl =>
        intro rest hwf hd
        rw [MsgVal.wfbList, Bool.and_eq_true] at hwf
        rw [MsgVal.depthList] at hd
        have hdv : MsgVal.depth v < fuel + 1 := lt_of_le_of_lt (le_max_left _ _) hd
        have hdvs : MsgVal.depthList vs < fuel + 1 := lt_of_le_of_lt (le_max_right _ _) hd
        rw [mpEncodeList, List.append_assoc, List.length_cons]
        simp only [mpDecodeList, hP v _ hwf.1 hdv, ihl _ hwf.2 hdvs, Option.map_some]
        rfl
    exact ⟨hP, hQ1⟩

/-- MessagePack round trip: for well-formed values, the library's `decode`
inverts `encode`. -/
theorem mpDecodeFull_mpEncode (v : MsgVal) (h : MsgVal.wfb v = true) :
    mpDecodeFull (mpEncode v) = some v := by
  have hfuel : MsgVal.depth v < (mpEncode v).length + 1 :=
    Nat.lt_succ_of_le (MsgVal.depth_le_encode v)
  have hdec := (mpDecode_mpEncode_aux ((mpEncode v).length + 1)).1 v [] h hfuel
  rw [List.append_nil] at hdec
  rw [mpDecodeFull, hdec]

theorem natToBE_lt (k n : Nat) : ∀ b ∈ natToBE k n, b < 256 := by
  induction k generalizing n with
  | zero => simp [natToBE]
  | succ k ih =>
    intro b hb
    rw [natToBE] at hb
    rcases List.mem_append.mp hb with h | h
    · exact ih _ b h
    · simp at h
      omega

mutual

theorem mpEncode_bytes_lt : ∀ (v : MsgVal), MsgVal.wfb v = true → ∀ b ∈ mpEncode v, b < 256
  | .nil => by
    intro _ b hb
    rw [mpEncode] at hb
    simp at hb
    omega
  | .bool bb => by
    intro _ b hb
    cases bb <;> (rw [mpEncode] at hb; simp at hb; omega)
  | .int i => by
    intro hwf b hb
    rw [MsgVal.wfb] at hwf
    simp only [Bool.and_eq_true, decide_eq_true_eq] at hwf
    rw [mpEncode] at hb
    split_ifs at hb with h1 h2 h3 h4 h5 h6 h7 h8 h9
    all_goals simp only [List.mem_cons, List.not_mem_nil, or_false] at hb
    all_goals try (rcases hb with rfl | hb)
    all_goals try (exact natToBE_lt _ _ _ hb)
    all_goals omega
  | .str s => by
    intro hwf b hb
    rw [MsgVal.wfb] at hwf
    simp only [Bool.and_eq_true, decide_eq_true_eq, List.all_eq_true] at hwf
    rw [mpEncode] at hb
    split_ifs at hb with h1 h2 h3
    all_goals simp only [List.mem_cons, List.mem_append, List.not_mem_nil, or_false] at hb
    · rcases hb with rfl | hb
      · omega
      · exact hwf.2 b hb
    all_goals
      rcases hb with rfl | hb | hb
      · norm_num
      · exact natToBE_lt _ _ _ hb
      · exact hwf.2 b hb
  | .bin bb => by
    intro hwf b hb
    rw [MsgVal.wfb] at hwf
    simp only [Bool.and_eq_true, decide_eq_true_eq, List.all_eq_true] at hwf
    rw [mpEncode] at hb
    split_ifs at hb with h1 h2
    all_goals simp only [List.mem_cons, List.mem_append, List.not_mem_nil, or_false] at hb
    all_goals
      rcases hb with rfl | hb | hb
      · norm_num
      · exact natToBE_lt _ _ _ hb
      · exact hwf.2 b hb
  | .arr l => by
    intro hwf b hb
    rw [MsgVal.wfb] at hwf
    simp only [Bool.and_eq_true, decide_eq_true_eq] at hwf
    rw [mpEncode] at hb
    rcases List.mem_append.mp hb with hb | hb
    · split_ifs at hb with h1 h2
      all_goals simp only [List.mem_cons, List.mem_singleton, List.not_mem_nil, or_false] at hb
      · omega
      all_goals
        rcases hb with rfl | hb
        · norm_num
        · exact natToBE_lt _ _ _ hb
    · exact mpEncodeList_bytes_lt l hwf.2 b hb

theorem mpEncodeList_bytes_lt : ∀ (l : List MsgVal), MsgVal.wfbList l = true →
    ∀ b ∈ mpEncodeList l, b < 256
  | [] => by
    intro _ b hb
    rw [mpEncodeList] at hb
    simp at hb
  | v :: vs => by
    intro hwf b hb
    rw [MsgVal.wfbList, Bool.and_eq_true] at hwf
    rw [mpEncodeList] at hb
    rcases List.mem_append.mp hb with hb | hb
    · exact mpEncode_bytes_lt v hwf.1 b hb
    · exact mpEncodeList_bytes_lt vs hwf.2 b hb

end

/-- Reconstructing a typed message's tuple returns the message's fields. -/
theorem createMessageFromTuple_toTuple (m : PMessage) :
    createMessageFromTuple (.arr m.toTuple) = .ok m.toRaw := by
  cases m <;> rfl

/-- C2: for every protocol message of every tag (HELLO, ACK, PULL, DATA,
ERROR) with well-formed field values, deserializing the serialized form
yields a message equal to the original field for field (`PMessage.toRaw`
carries every field over unchanged). -/
theorem serialize_roundtrip (m : PMessage) (h : PMessage.wfb m = true) :
    deserializeMessage (serializeMessage m) = .ok m.toRaw := by
  simp only [serializeMessage, deserializeMessage,
    atob_btoa _ (mpEncode_bytes_lt _ h), mpDecodeFull_mpEncode _ h,
    createMessageFromTuple_toTuple]

/-- Witness for C2 at a concrete ACK message. -/
theorem serialize_roundtrip_witness :
    PMessage.wfb (.ack [65, 66] 7) = true ∧
    deserializeMessage (serializeMessage (.ack [65, 66] 7)) =
      .ok (PMessage.toRaw (.ack [65, 66] 7)) :=
  ⟨by decide, serialize_roundtrip (.ack [65, 66] 7) (by decide)⟩

/-- Dispatch on a nonempty tuple fails exactly on an unknown tag or a
tag/arity mismatch. -/
theorem createMessageFromTuple_cons_error_iff (tag : MsgVal) (rest : List MsgVal) :
    (∃ e, createMessageFromTuple (.arr (tag :: rest)) = .error e ∧
        e.code = .protocolError) ↔
      (tagArity tag = none ∨ ∃ n, tagArity tag = some n ∧ rest.length + 1 ≠ n) := by
  rw [createMessageFromTuple, tagArity]
  by_cases t0 : tag.isInt 0
  · rw [if_pos t0, if_pos t0]
    by_cases hl : rest.length ≠ 9
    · rw [if_pos hl]
      constructor
      · intro _
        exact Or.inr ⟨10, rfl, by omega⟩
      · intro _
        exact ⟨_, rfl, rfl⟩
    · rw [if_neg hl]
      push_neg at hl
      constructor
      · rintro ⟨e, he, _⟩
        exact absurd he (by simp)
      · rintro (h | ⟨n, hn, hne⟩)
        · exact absurd h (by simp)
        · obtain rfl : (10 : Nat) = n := Option.some.inj hn
          omega
  · rw [if_neg t0, if_neg t0]
    by_cases t1 : tag.isInt 1
    · rw [if_pos t1, if_pos t1]
      by_cases hl : rest.length ≠ 2
      · rw [if_pos hl]
        constructor
        · intro _
          exact Or.inr ⟨3, rfl, by omega⟩
        · intro _
          exact ⟨_, rfl, rfl⟩
      · rw [if_neg hl]
        push_neg at hl
        constructor
        · rintro ⟨e, he, _⟩
          exact absurd he (by simp)
        · rintro (h | ⟨n, hn, hne⟩)
          · exact absurd h (by simp)
          · obtain rfl : (3 : Nat) = n := Option.some.inj hn
            omega
    · rw [if_neg t1, if_neg t1]
      by_cases t2 : tag.isInt 2
      · rw [if_pos t2, if_pos t2]
        by_cases hl : rest.length ≠ 3
        · rw [if_pos hl]
          constructor
          · intro _
            exact Or.inr ⟨4, rfl, by omega⟩
          · intro _
            exact ⟨_, rfl, rfl⟩
        · rw [if_neg hl]
          push_neg at hl
          constructor
          · rintro ⟨e, he, _⟩
            exact absurd he (by simp)
          · rintro (h | ⟨n, hn, hne⟩)
            · exact absurd h (by simp)
            · obtain rfl : (4 : Nat) = n := Option.some.inj hn
              omega
      · rw [if_neg t2, if_neg t2]
        by_cases t3 : tag.isInt 3
        · rw [if_pos t3, if_pos t3]
          by_cases hl : rest.length ≠ 5
          · rw [if_pos hl]
            constructor
            · intro _
              exact Or.inr ⟨6, rfl, by omega⟩
            · intro _
              exact ⟨_, rfl, rfl⟩
          · rw [if_neg hl]
            push_neg at hl
            constructor
            · rintro ⟨e, he, _⟩
              exact absurd he (by simp)
            · rintro (h | ⟨n, hn, hne⟩)
              · exact absurd h (by simp)
              · obtain rfl : (6 : Nat) = n := Option.some.inj hn
                omega
        · rw [if_neg t3, if_neg t3]
          by_cases t4 : tag.isInt 4
          · rw [if_pos t4, if_pos t4]
            by_cases hl : rest.length ≠ 1
            · rw [if_pos hl]
              constructor
              · intro _
                exact Or.inr ⟨2, rfl, by omega⟩
              · intro _
                exact ⟨_, rfl, rfl⟩
            · rw [if_neg hl]
              push_neg at hl
              constructor
              · rintro ⟨e, he, _⟩
                exact absurd he (by simp)
              · rintro (h | ⟨n, hn, hne⟩)
                · exact absurd h (by simp)
                · obtain rfl : (2 : Nat) = n := Option.some.inj hn
                  omega
          · rw [if_neg t4, if_neg t4]
            exact iff_of_true ⟨_, rfl, rfl⟩ (Or.inl rfl)

/-- `createMessageFromTuple` fails exactly on a non-array value, an empty
tuple, an unknown tag, or a tag/arity mismatch. -/
theorem createMessageFromTuple_error_iff (t : MsgVal) :
    (∃ e, createMessageFromTuple t = .error e ∧ e.code = .protocolError) ↔
      ((∀ l, t ≠ .arr l) ∨ t = .arr [] ∨
        ∃ tag rest, t = .arr (tag :: rest) ∧
          (tagArity tag = none ∨ ∃ n, tagArity tag = some n ∧ rest.length + 1 ≠ n)) := by
  cases t with
  | arr l =>
    cases l with
    | nil => exact iff_of_true ⟨_, rfl, rfl⟩ (Or.inr (Or.inl rfl))
    | cons tag rest =>
      refine Iff.trans (createMessageFromTuple_cons_error_iff tag rest) ?_
      constructor
      · intro h
        exact Or.inr (Or.inr ⟨tag, rest, rfl, h⟩)
      · rintro (h | h | ⟨tag2, rest2, heq, h⟩)
        · exact absurd rfl (h (tag :: rest))
        · simp at h
        · injection heq with h3
          injection h3 with h4 h5
          subst h4
          subst h5
          exact h
  | nil => exact iff_of_true ⟨_, rfl, rfl⟩ (Or.inl fun l h => MsgVal.noConfusion h)
  | bool b => exact iff_of_true ⟨_, rfl, rfl⟩ (Or.inl fun l h => MsgVal.noConfusion h)
  | int i => exact iff_of_true ⟨_, rfl, rfl⟩ (Or.inl fun l h => MsgVal.noConfusion h)
  | str s => exact iff_of_true ⟨_, rfl, rfl⟩ (Or.inl fun l h => MsgVal.noConfusion h)
  | bin b => exact iff_of_true ⟨_, rfl, rfl⟩ (Or.inl fun l h => MsgVal.noConfusion h)

/-- Every `createMessageFromTuple` failure carries `PROTOCOL_ERROR`. -/
theorem createMessageFromTuple_error_code : ∀ (t : MsgVal) (e : TransferError),
    createMessageFromTuple t = .error e → e.code = .protocolError := by
  intro t e h
  cases t with
  | arr l =>
    cases l with
    | nil =>
      cases h
      rfl
    | cons tag rest =>
      rw [createMessageFromTuple] at h
      split_ifs at h <;> first | (cases h; rfl) | exact Except.noConfusion h
  | nil =>
    cases h
    rfl
  | bool b =>
    cases h
    rfl
  | int i =>
    cases h
    rfl
  | str s =>
    cases h
    rfl
  | bin b =>
    cases h
    rfl

/-- C7: decoding fails — always with a `PROTOCOL_ERROR` `TransferError` —
exactly when the base64 is invalid, the binary decoding fails, the decoded
value is not a non-empty tuple, the tag is unknown, or the tuple's arity
does not match the tag's count (HELLO 10, ACK 3, PULL 4, DATA 6, ERROR 2);
a tuple with a known tag and the right arity is accepted whatever the
element types. -/
theorem deserialize_fails_iff (text : String) :
    (∃ e, deserializeMessage text = .error e ∧ e.code = .protocolError) ↔
      (atob text = none ∨
        ∃ bytes, atob text = some bytes ∧
          (mpDecodeFull bytes = none ∨
            ∃ tuple, mpDecodeFull bytes = some tuple ∧
              ((∀ l, tuple ≠ .arr l) ∨ tuple = .arr [] ∨
                ∃ tag rest, tuple = .arr (tag :: rest) ∧
                  (tagArity tag = none ∨
                    ∃ n, tagArity tag = some n ∧ rest.length + 1 ≠ n)))) := by
  cases hA : atob text with
  | none =>
    refine iff_of_true ⟨⟨.protocolError, "Failed to deserialize message"⟩, ?_, rfl⟩
      (Or.inl rfl)
    simp only [deserializeMessage, hA]
  | some bytes =>
    cases hM : mpDecodeFull bytes with
    | none =>
      refine iff_of_true ⟨⟨.protocolError, "Failed to deserialize message"⟩, ?_, rfl⟩
        (Or.inr ⟨bytes, rfl, Or.inl hM⟩)
      simp only [deserializeMessage, hA, hM]
    | some tuple =>
      constructor
      · rintro ⟨e, he, hcode⟩
        simp only [deserializeMessage, hA, hM] at he
        refine Or.inr ⟨bytes, rfl, Or.inr ⟨tuple, hM, ?_⟩⟩
        cases hC : createMessageFromTuple tuple with
        | ok m =>
          rw [hC] at he
          exact Except.noConfusion he
        | error e2 =>
          exact (createMessageFromTuple_error_iff tuple).mp
            ⟨e2, hC, createMessageFromTuple_error_code tuple e2 hC⟩
      · rintro (h | ⟨bytes2, hb, h⟩)
        · exact Option.noConfusion h
        · cases hb
          rcases h with h | ⟨tuple2, ht, hcond⟩
          · rw [hM] at h
            exact Option.noConfusion h
          · rw [hM] at ht
            cases ht
            obtain ⟨e, hC, hcode⟩ := (createMessageFromTuple_error_iff tuple).mpr hcond
            refine ⟨⟨.protocolError, "Failed to deserialize message: " ++ e.msg⟩, ?_, rfl⟩
            simp only [deserializeMessage, hA, hM, hC]

/-- C3: for every byte blob `B` and chunk size `s ≥ 1`, assembling the
chunks of `B` reproduces `B` exactly; the number of chunks is
`⌈len(B)/s⌉`; every chunk except the last has length exactly `s`; and an
empty blob yields zero chunks. -/
theorem chunker_identity (B : List Nat) (s : Nat) (hs : 1 ≤ s) :
    (∀ name mime, (assembleFile (chunkFile B s) name mime).content = B) ∧
    (chunkFile B s).length = (B.length + s - 1) / s ∧
    (∀ c ∈ (chunkFile B s).dropLast, c.length = s) ∧
    (B = [] → chunkFile B s = []) := by
  refine ⟨fun name mime => ?_, length_chunkFile B s hs,
    fun c hc => length_mem_dropLast_chunkFile B s hs c hc, fun hB => ?_⟩
  · simpa [assembleFile] using join_chunkFile B s hs
  · rw [hB, chunkFile_nil]

/-- Witness for C3 at `B = [0,1,2,3,4]`, `s = 2`. -/
theorem chunker_identity_witness :
    1 ≤ 2 ∧
    ((∀ name mime,
        (assembleFile (chunkFile [0, 1, 2, 3, 4] 2) name mime).content = [0, 1, 2, 3, 4]) ∧
      (chunkFile [0, 1, 2, 3, 4] 2).length = (5 + 2 - 1) / 2 ∧
      (∀ c ∈ (chunkFile [0, 1, 2, 3, 4] 2).dropLast, c.length = 2) ∧
      ([0, 1, 2, 3, 4] = ([] : List Nat) → chunkFile [0, 1, 2, 3, 4] 2 = [])) :=
  ⟨by decide, chunker_identity [0, 1, 2, 3, 4] 2 (by decide)⟩

theorem sender_cancelN_succ_eq (n : Nat) (s : SenderS) :
    FileSender.cancelN (n + 1) s = ((FileSender.cancel s).s, [], []) := by
  induction n generalizing s with
  | zero => rfl
  | succ n ih =>
    rw [FileSender.cancelN, ih]
    simp [FileSender.cancel]

theorem receiver_cancelN_succ_eq (n : Nat) (r : ReceiverS) :
    FileReceiver.cancelN (n + 1) r = ((FileReceiver.cancel r).s, [], []) := by
  induction n generalizing r with
  | zero => rfl
  | succ n ih =>
    rw [FileReceiver.cancelN, ih]
    simp [FileReceiver.cancel]

/-- C9: calling `cancel()` on either engine, in any state, `N ≥ 1` times
leaves it in CANCELLED, writes no frame, and invokes no callback or
promise settlement; repeated calls are no-ops (the state after `N` calls
equals the state after one). -/
theorem cancel_idempotent (n : Nat) (hn : 1 ≤ n) (s : SenderS) (r : ReceiverS) :
    (FileSender.cancelN n s).1.state = .cancelled ∧
    (FileSender.cancelN n s).2.1 = [] ∧
    (FileSender.cancelN n s).2.2 = [] ∧
    (FileSender.cancelN n s).1 = (FileSender.cancelN 1 s).1 ∧
    (FileReceiver.cancelN n r).1.state = .cancelled ∧
    (FileReceiver.cancelN n r).2.1 = [] ∧
    (FileReceiver.cancelN n r).2.2 = [] ∧
    (FileReceiver.cancelN n r).1 = (FileReceiver.cancelN 1 r).1 := by
  obtain ⟨m, rfl⟩ : ∃ m, n = m + 1 := ⟨n - 1, by omega⟩
  rw [sender_cancelN_succ_eq, receiver_cancelN_succ_eq,
    sender_cancelN_succ_eq, receiver_cancelN_succ_eq]
  exact ⟨rfl, rfl, rfl, rfl, rfl, rfl, rfl, rfl⟩

/-- Witness for C9 at `n = 3` on concrete mid-transfer engines. -/
theorem cancel_idempotent_witness :
    (1 : Nat) ≤ 3 ∧
    ((FileSender.cancelN 3 ⟨.transfer, [65], 7, [[1]], none, [66], 1, [], 0, true,
        true, false, 64⟩).1.state = .cancelled ∧
      (FileSender.cancelN 3 ⟨.transfer, [65], 7, [[1]], none, [66], 1, [], 0, true,
        true, false, 64⟩).2.1 = [] ∧
      (FileSender.cancelN 3 ⟨.transfer, [65], 7, [[1]], none, [66], 1, [], 0, true,
        true, false, 64⟩).2.2 = [] ∧
      (FileSender.cancelN 3 ⟨.transfer, [65], 7, [[1]], none, [66], 1, [], 0, true,
        true, false, 64⟩).1 =
        (FileSender.cancelN 1 ⟨.transfer, [65], 7, [[1]], none, [66], 1, [], 0, true,
          true, false, 64⟩).1 ∧
      (FileReceiver.cancelN 3 ⟨.handshake, [65], 3, [], [66], 1, [], 1, 64, 0, true,
        true⟩).1.state = .cancelled ∧
      (FileReceiver.cancelN 3 ⟨.handshake, [65], 3, [], [66], 1, [], 1, 64, 0, true,
        true⟩).2.1 = [] ∧
      (FileReceiver.cancelN 3 ⟨.handshake, [65], 3, [], [66], 1, [], 1, 64, 0, true,
        true⟩).2.2 = [] ∧
      (FileReceiver.cancelN 3 ⟨.handshake, [65], 3, [], [66], 1, [], 1, 64, 0, true,
        true⟩).1 =
        (FileReceiver.cancelN 1 ⟨.handshake, [65], 3, [], [66], 1, [], 1, 64, 0, true,
          true⟩).1) :=
  ⟨by decide, cancel_idempotent 3 (by decide) _ _⟩

/-- C10: `send()` on a sender, or `receive()` on a receiver, whose state
is not IDLE throws a PROTOCOL_ERROR `TransferError` and performs nothing:
no frame, no event, and the engine state is returned unchanged. -/
theorem send_receive_guard (s : SenderS) (f : BFile) (r : ReceiverS)
    (hs : s.state ≠ .idle) (hr : r.state ≠ .idle) :
    FileSender.send s f =
      ⟨s, [], [], some ⟨.protocolError, "Transfer already in progress"⟩⟩ ∧
    FileReceiver.receive r =
      ⟨r, [], [], some ⟨.protocolError, "Reception already in progress"⟩⟩ := by
  rw [FileSender.send, if_pos hs, FileReceiver.receive, if_pos hr]
  exact ⟨rfl, rfl⟩

/-- Witness for C10 on a sender in TRANSFER and a receiver in DONE. -/
theorem send_receive_guard_witness :
    (SenderS.mk .transfer [65] 7 [[1]] none [66] 1 [] 0 true true false 64).state ≠ .idle ∧
    (ReceiverS.mk .done [65] 3 [] [66] 1 [] 1 64 0 false false).state ≠ .idle ∧
    (FileSender.send (SenderS.mk .transfer [65] 7 [[1]] none [66] 1 [] 0 true true false 64)
        ⟨[70], [], [1, 2]⟩ =
      ⟨SenderS.mk .transfer [65] 7 [[1]] none [66] 1 [] 0 true true false 64, [], [],
        some ⟨.protocolError, "Transfer already in progress"⟩⟩ ∧
    FileReceiver.receive (ReceiverS.mk .done [65] 3 [] [66] 1 [] 1 64 0 false false) =
      ⟨ReceiverS.mk .done [65] 3 [] [66] 1 [] 1 64 0 false false, [], [],
        some ⟨.protocolError, "Reception already in progress"⟩⟩) :=
  ⟨by decide, by decide, send_receive_guard _ ⟨[70], [], [1, 2]⟩ _ (by decide) (by decide)⟩

/-- C1 (evaluating the code at failing inputs): message-handler errors do
not terminate the engine.  A receiver in HANDSHAKE with a pending receive
that handles an ERROR(INVALID_PARTY) frame — or a sender in HANDSHAKE
that handles a frame raising a ProtocolError — keeps its state (never
ERROR), invokes no `onError`, and leaves the future pending: the
`handleError` bodies are commented out in the source. -/
theorem handler_error_swallowed :
    (FileReceiver.handleMessage ⟨.handshake, [65], 3, [], [66], 1, [], 1, 64, 0, true, true⟩
        (.error 0)).s =
      ⟨.handshake, [65], 3, [], [66], 1, [], 1, 64, 0, true, true⟩ ∧
    (FileReceiver.handleMessage ⟨.handshake, [65], 3, [], [66], 1, [], 1, 64, 0, true, true⟩
        (.error 0)).events = [] ∧
    (FileReceiver.handleMessage ⟨.handshake, [65], 3, [], [66], 1, [], 1, 64, 0, true, true⟩
        (.error 0)).s.state ≠ .error ∧
    (FileReceiver.handleMessage ⟨.handshake, [65], 3, [], [66], 1, [], 1, 64, 0, true, true⟩
        (.error 0)).s.hasPending = true ∧
    (FileReceiver.handleMessage ⟨.handshake, [65], 3, [], [66], 1, [], 1, 64, 0, true, true⟩
        (.data [65] 9 0 (-1) [1])).s.state = .handshake ∧
    (FileReceiver.handleMessage ⟨.handshake, [65], 3, [], [66], 1, [], 1, 64, 0, true, true⟩
        (.data [65] 9 0 (-1) [1])).events = [] ∧
    (FileSender.handleMessage ⟨.handshake, [65], 7, [[1]], none, [66], 1, [], 0, true, true,
        false, 64⟩ (.error 0)).s.state = .handshake ∧
    (FileSender.handleMessage ⟨.handshake, [65], 7, [[1]], none, [66], 1, [], 0, true, true,
        false, 64⟩ (.error 0)).events = [] ∧
    (FileSender.handleMessage ⟨.handshake, [65], 7, [[1]], none, [66], 1, [], 0, true, true,
        false, 64⟩ (.error 0)).s.hasPending = true := by
  decide

/-- C4 counterexample: a sender in HANDSHAKE handling a HELLO with
`party = receiver` writes nothing at all — in particular it does not emit
an ERROR(INVALID_PARTY) frame on its Writer, contrary to the claim. -/
theorem sender_no_invalid_party_frame :
    (FileSender.handleMessage ⟨.handshake, [65], 7, [[1]], none, [66], 1, [], 0, true, true,
        false, 64⟩ (.hello [65] 5 PartyType.RECEIVER 0 [66] 1 [67] 1 64)).writes = [] ∧
    ¬ PMessage.error ErrorType.INVALID_PARTY ∈
      (FileSender.handleMessage ⟨.handshake, [65], 7, [[1]], none, [66], 1, [], 0, true, true,
        false, 64⟩ (.hello [65] 5 PartyType.RECEIVER 0 [66] 1 [67] 1 64)).writes ∧
    (FileSender.handleMessage ⟨.handshake, [65], 7, [[1]], none, [66], 1, [], 0, true, true,
        false, 64⟩ (.hello [65] 5 PartyType.RECEIVER 0 [66] 1 [67] 1 64)).s.state =
      .handshake := by
  decide

/-- C4 (amended): a sender in HANDSHAKE that receives any HELLO raises an
internal ProtocolError ("Unexpected message type") which the dispatcher's
catch hands to the no-op `handleError`: no frame is written, no event
fires, the state is unchanged — in particular it never enters TRANSFER
from this frame.  A receiver in HANDSHAKE that receives a HELLO with
`party = receiver` writes ERROR(INVALID_PARTY) on its Writer and its
handler raises an InvalidParty error, which the catch likewise swallows
without failing the receive. -/
theorem hello_collision (sS : SenderS) (rS : ReceiverS)
    (hs : sS.state = .handshake) (hr : rS.state = .handshake)
    (sid : List Nat) (seq ver : Int) (name : List Nat) (size : Int)
    (mime : List Nat) (total csize : Int) :
    FileSender.dispatchMessage sS (.hello sid seq PartyType.RECEIVER ver name size mime
        total csize) =
      ⟨sS, [], [], some ⟨.protocolError, "Unexpected message type"⟩⟩ ∧
    FileSender.handleMessage sS (.hello sid seq PartyType.RECEIVER ver name size mime
        total csize) = ⟨sS, [], [], none⟩ ∧
    FileReceiver.dispatchMessage rS (.hello sid seq PartyType.RECEIVER ver name size mime
        total csize) =
      ⟨rS, [PMessage.error ErrorType.INVALID_PARTY], [],
        some ⟨.invalidParty, "Another receiver detected"⟩⟩ ∧
    FileReceiver.handleMessage rS (.hello sid seq PartyType.RECEIVER ver name size mime
        total csize) =
      ⟨rS, [PMessage.error ErrorType.INVALID_PARTY], [], none⟩ := by
  have hsd : FileSender.dispatchMessage sS (.hello sid seq PartyType.RECEIVER ver name size
      mime total csize) = ⟨sS, [], [], some ⟨.protocolError, "Unexpected message type"⟩⟩ := rfl
  have hrd : FileReceiver.dispatchMessage rS (.hello sid seq PartyType.RECEIVER ver name size
      mime total csize) =
      ⟨rS, [PMessage.error ErrorType.INVALID_PARTY], [],
        some ⟨.invalidParty, "Another receiver detected"⟩⟩ := by
    rw [FileReceiver.dispatchMessage, FileReceiver.handleHelloMessage]
    rw [if_neg (by rw [hr]; exact fun h => h rfl), if_pos rfl]
  refine ⟨hsd, ?_, hrd, ?_⟩
  · rw [FileSender.handleMessage, hsd]
    rfl
  · rw [FileReceiver.handleMessage, hrd]
    rfl

/-- Witness for C4 (amended) on concrete HANDSHAKE engines. -/
theorem hello_collision_witness :
    (SenderS.mk .handshake [65] 7 [[1]] none [66] 1 [] 0 true true false 64).state =
      .handshake ∧
    (ReceiverS.mk .handshake [65] 3 [] [66] 1 [] 1 64 0 true true).state = .handshake ∧
    (FileSender.dispatchMessage
        (SenderS.mk .handshake [65] 7 [[1]] none [66] 1 [] 0 true true false 64)
        (.hello [65] 5 PartyType.RECEIVER 0 [66] 1 [67] 1 64) =
      ⟨SenderS.mk .handshake [65] 7 [[1]] none [66] 1 [] 0 true true false 64, [], [],
        some ⟨.protocolError, "Unexpected message type"⟩⟩ ∧
    FileSender.handleMessage
        (SenderS.mk .handshake [65] 7 [[1]] none [66] 1 [] 0 true true false 64)
        (.hello [65] 5 PartyType.RECEIVER 0 [66] 1 [67] 1 64) =
      ⟨SenderS.mk .handshake [65] 7 [[1]] none [66] 1 [] 0 true true false 64, [], [],
        none⟩ ∧
    FileReceiver.dispatchMessage (ReceiverS.mk .handshake [65] 3 [] [66] 1 [] 1 64 0 true true)
        (.hello [65] 5 PartyType.RECEIVER 0 [66] 1 [67] 1 64) =
      ⟨ReceiverS.mk .handshake [65] 3 [] [66] 1 [] 1 64 0 true true,
        [PMessage.error ErrorType.INVALID_PARTY], [],
        some ⟨.invalidParty, "Another receiver detected"⟩⟩ ∧
    FileReceiver.handleMessage (ReceiverS.mk .handshake [65] 3 [] [66] 1 [] 1 64 0 true true)
        (.hello [65] 5 PartyType.RECEIVER 0 [66] 1 [67] 1 64) =
      ⟨ReceiverS.mk .handshake [65] 3 [] [66] 1 [] 1 64 0 true true,
        [PMessage.error ErrorType.INVALID_PARTY], [], none⟩) :=
  ⟨by decide, by decide, hello_collision _ _ (by decide) (by decide) [65] 5 0 [66] 1 [67] 1 64⟩

theorem validateChunks_false_of_violation (chunks : List (List Nat)) (fs cs : Nat)
    (h : (∃ c ∈ chunks.dropLast, c.length ≠ cs) ∨
      (((chunks.map List.length).sum : Int) - (fs : Int)).natAbs > cs) :
    FileSender.validateChunks chunks fs cs = false := by
  simp only [FileSender.validateChunks]
  by_cases h0 : chunks.length = 0
  · rw [if_pos h0]
  · rw [if_neg h0]
    by_cases h1 : (((chunks.map List.length).sum : Int) - (fs : Int)).natAbs > cs
    · rw [if_pos h1]
    · rw [if_neg h1]
      rcases h with ⟨c, hc, hlen⟩ | habs
      · rw [if_pos (by rw [List.any_eq_true]; exact ⟨c, hc, by simpa using hlen⟩)]
      · exact absurd habs h1

/-- C5 counterexample: a violating resumable session makes
`sendResumable` fail with code PROTOCOL_ERROR — not SESSION_EXPIRED as
the claim states (that enum variant is never raised here). -/
theorem resume_error_code_counterexample :
    (FileSender.sendResumable ⟨.idle, [], 0, [], none, [], 0, [], 0, false, false, false, 64⟩
        ⟨[65], [66], 100, [], 2, 10, [[1], [2]], 0⟩).err =
      some ⟨.protocolError, "Stored chunks failed integrity validation"⟩ ∧
    (∀ e, (FileSender.sendResumable ⟨.idle, [], 0, [], none, [], 0, [], 0, false, false,
        false, 64⟩ ⟨[65], [66], 100, [], 2, 10, [[1], [2]], 0⟩).err = some e →
      e.code ≠ .sessionExpired) ∧
    (FileSender.sendResumable ⟨.idle, [], 0, [], none, [], 0, [], 0, false, false, false, 64⟩
        ⟨[65], [66], 100, [], 2, 10, [[1], [2]], 0⟩).writes = [] := by
  refine ⟨by decide, ?_, by decide⟩
  intro e he
  have : e = ⟨.protocolError, "Stored chunks failed integrity validation"⟩ :=
    Option.some.inj (by rw [← he]; decide)
  rw [this]
  decide

/-- C5 (amended): every resumable session on an IDLE sender whose stored
chunk list violates the Chunker integrity rule (a non-last chunk differs
from `chunk_size`, or the total stored size differs from the declared
`file_size` by more than one `chunk_size`) makes `sendResumable` fail
with a PROTOCOL_ERROR `TransferError` ("Stored chunks failed integrity
validation") — not SessionExpired — before any frame is written, leaving
the state unchanged. -/
theorem resume_validation (s : SenderS) (d : ResumableSessionData)
    (hidle : s.state = .idle)
    (hbad : (∃ c ∈ d.chunks.dropLast, c.length ≠ d.chunkSize) ∨
      (((d.chunks.map List.length).sum : Int) - (d.fileSize : Int)).natAbs > d.chunkSize) :
    FileSender.sendResumable s d =
      ⟨s, [], [], some ⟨.protocolError, "Stored chunks failed integrity validation"⟩⟩ := by
  rw [FileSender.sendResumable]
  rw [if_neg (by rw [hidle]; exact fun h => h rfl)]
  rw [if_pos (validateChunks_false_of_violation d.chunks d.fileSize d.chunkSize hbad)]

/-- Witness for C5 (amended) at a concrete violating session. -/
theorem resume_validation_witness :
    (SenderS.mk .idle [] 0 [] none [] 0 [] 0 false false false 64).state = .idle ∧
    ((∃ c ∈ (ResumableSessionData.mk [65] [66] 100 [] 2 10 [[1], [2]] 0).chunks.dropLast,
        c.length ≠ (ResumableSessionData.mk [65] [66] 100 [] 2 10 [[1], [2]] 0).chunkSize) ∨
      ((((ResumableSessionData.mk [65] [66] 100 [] 2 10 [[1], [2]] 0).chunks.map
          List.length).sum : Int) -
        ((ResumableSessionData.mk [65] [66] 100 [] 2 10 [[1], [2]] 0).fileSize : Int)).natAbs >
        (ResumableSessionData.mk [65] [66] 100 [] 2 10 [[1], [2]] 0).chunkSize) ∧
    FileSender.sendResumable (SenderS.mk .idle [] 0 [] none [] 0 [] 0 false false false 64)
        (ResumableSessionData.mk [65] [66] 100 [] 2 10 [[1], [2]] 0) =
      ⟨SenderS.mk .idle [] 0 [] none [] 0 [] 0 false false false 64, [], [],
        some ⟨.protocolError, "Stored chunks failed integrity validation"⟩⟩ :=
  ⟨by decide, by decide,
    resume_validation _ _ (by decide) (by decide)⟩

/-- C6: a sender in TRANSFER handling `PULL(chunk_index)` with matching
session id answers an in-range index with
`DATA(chunk_index, next = chunk_index + 1 or -1 if last, payload =
chunks[chunk_index])` and sets `sent_chunks = chunk_index`; an
out-of-range index gets `DATA(chunk_index, -1, empty)`; and whenever the
produced `next` is `-1` the sender is in DONE after sending. -/
theorem sender_pull (s : SenderS) (sid : List Nat) (seq ci : Int)
    (hstate : s.state = .transfer) (hsid : sid = s.sessionId) :
    ((0 ≤ ci ∧ ci < (s.chunks.length : Int)) →
      (FileSender.handleMessage s (.pull sid seq ci)).writes =
        [PMessage.data s.sessionId s.sequenceNumber ci
          (if ci + 1 < (s.chunks.length : Int) then ci + 1 else -1)
          (s.chunks.getD ci.toNat [])] ∧
      (FileSender.handleMessage s (.pull sid seq ci)).s.sentChunks = ci) ∧
    (¬ (0 ≤ ci ∧ ci < (s.chunks.length : Int)) →
      (FileSender.handleMessage s (.pull sid seq ci)).writes =
        [PMessage.data s.sessionId s.sequenceNumber ci (-1) []]) ∧
    (((0 ≤ ci ∧ ci < (s.chunks.length : Int)) → ¬ ci + 1 < (s.chunks.length : Int)) →
      (FileSender.handleMessage s (.pull sid seq ci)).s.state = .done) := by
  simp only [FileSender.handleMessage, FileSender.dispatchMessage,
    FileSender.handlePullMessage]
  rw [if_neg (by rw [hstate]; exact fun h => h rfl), if_neg (by rw [hsid]; exact fun h => h rfl)]
  by_cases hin : 0 ≤ ci ∧ ci < (s.chunks.length : Int)
  · rw [if_pos hin]
    by_cases hlast : ci + 1 < (s.chunks.length : Int)
    · rw [if_pos hlast, if_neg (show ¬ (ci + 1 = (-1 : Int)) by omega)]
      exact ⟨fun _ => ⟨rfl, rfl⟩, fun hc => absurd hin hc, fun hc => absurd hlast (hc hin)⟩
    · rw [if_neg hlast, if_pos rfl]
      exact ⟨fun _ => ⟨rfl, rfl⟩, fun hc => absurd hin hc, fun _ => rfl⟩
  · rw [if_neg hin]
    exact ⟨fun hc => absurd hc hin, fun _ => rfl, fun _ => rfl⟩

/-- Witness for C6 at a two-chunk sender pulling index 0. -/
theorem sender_pull_witness :
    (SenderS.mk .transfer [65] 7 [[1], [2]] none [66] 2 [] 0 true true false 64).state =
      .transfer ∧
    [65] = (SenderS.mk .transfer [65] 7 [[1], [2]] none [66] 2 [] 0 true true false 64).sessionId ∧
    (((0 ≤ (0 : Int) ∧ (0 : Int) <
        ((SenderS.mk .transfer [65] 7 [[1], [2]] none [66] 2 [] 0 true true false
          64).chunks.length : Int)) →
      (FileSender.handleMessage
          (SenderS.mk .transfer [65] 7 [[1], [2]] none [66] 2 [] 0 true true false 64)
          (.pull [65] 9 0)).writes =
        [PMessage.data (SenderS.mk .transfer [65] 7 [[1], [2]] none [66] 2 [] 0 true true
            false 64).sessionId
          (SenderS.mk .transfer [65] 7 [[1], [2]] none [66] 2 [] 0 true true false
            64).sequenceNumber 0
          (if (0 : Int) + 1 <
              ((SenderS.mk .transfer [65] 7 [[1], [2]] none [66] 2 [] 0 true true false
                64).chunks.length : Int) then (0 : Int) + 1 else -1)
          ((SenderS.mk .transfer [65] 7 [[1], [2]] none [66] 2 [] 0 true true false
            64).chunks.getD (0 : Int).toNat [])] ∧
      (FileSender.handleMessage
          (SenderS.mk .transfer [65] 7 [[1], [2]] none [66] 2 [] 0 true true false 64)
          (.pull [65] 9 0)).s.sentChunks = 0) ∧
    (¬ (0 ≤ (0 : Int) ∧ (0 : Int) <
        ((SenderS.mk .transfer [65] 7 [[1], [2]] none [66] 2 [] 0 true true false
          64).chunks.length : Int)) →
      (FileSender.handleMessage
          (SenderS.mk .transfer [65] 7 [[1], [2]] none [66] 2 [] 0 true true false 64)
          (.pull [65] 9 0)).writes =
        [PMessage.data (SenderS.mk .transfer [65] 7 [[1], [2]] none [66] 2 [] 0 true true
            false 64).sessionId
          (SenderS.mk .transfer [65] 7 [[1], [2]] none [66] 2 [] 0 true true false
            64).sequenceNumber 0 (-1) []]) ∧
    (((0 ≤ (0 : Int) ∧ (0 : Int) <
        ((SenderS.mk .transfer [65] 7 [[1], [2]] none [66] 2 [] 0 true true false
          64).chunks.length : Int)) →
      ¬ (0 : Int) + 1 <
        ((SenderS.mk .transfer [65] 7 [[1], [2]] none [66] 2 [] 0 true true false
          64).chunks.length : Int)) →
      (FileSender.handleMessage
          (SenderS.mk .transfer [65] 7 [[1], [2]] none [66] 2 [] 0 true true false 64)
          (.pull [65] 9 0)).s.state = .done)) :=
  ⟨by decide, by decide, sender_pull _ [65] 9 0 (by decide) (by decide)⟩

theorem sorted_filter_parts (c : Nat) : ∀ (L : List StoredFileData), L.Sorted accessLe →
    L.filter (fun g => g.lastAccessedAt < c) = L.takeWhile (fun g => g.lastAccessedAt < c) ∧
    L.filter (fun g => ¬ g.lastAccessedAt < c) = L.dropWhile (fun g => g.lastAccessedAt < c)
  | [], _ => ⟨rfl, rfl⟩
  | x :: xs, h => by
    rw [List.sorted_cons] at h
    obtain ⟨hx, hxs⟩ := h
    obtain ⟨ih1, ih2⟩ := sorted_filter_parts c xs hxs
    by_cases hpx : x.lastAccessedAt < c
    · rw [List.filter_cons_of_pos (by simpa using hpx),
        List.takeWhile_cons_of_pos (by simpa using hpx),
        List.filter_cons_of_neg (by simpa using hpx),
        List.dropWhile_cons_of_pos (by simpa using hpx)]
      exact ⟨by rw [ih1], ih2⟩
    · have hall : ∀ y ∈ xs, ¬ y.lastAccessedAt < c := by
        intro y hy
        have hxy : x.lastAccessedAt ≤ y.lastAccessedAt := hx y hy
        omega
      rw [List.filter_cons_of_neg (by simpa using hpx),
        List.takeWhile_cons_of_neg (by simpa using hpx),
        List.filter_cons_of_pos (by simpa using hpx),
        List.dropWhile_cons_of_neg (by simpa using hpx)]
      constructor
      · rw [List.filter_eq_nil_iff.mpr (by intro y hy; simpa using hall y hy)]
      · rw [List.filter_eq_self.mpr (by intro y hy; simpa using hall y hy)]

theorem name_mem_map_iff (L sub : List StoredFileData) (hsub : sub ⊆ L)
    (hnd : (L.map (fun g => g.fileName)).Nodup) (f : StoredFileData) (hf : f ∈ L) :
    f.fileName ∈ sub.map (fun g => g.fileName) ↔ f ∈ sub := by
  constructor
  · intro h
    obtain ⟨g, hg, hname⟩ := List.mem_map.mp h
    have hgf : g = f := List.inj_on_of_nodup_map hnd (hsub hg) hf hname
    rwa [hgf] at hg
  · intro h
    exact List.mem_map_of_mem _ h

theorem mem_take_or_iff (L : List StoredFileData) (a b : Nat) (f : StoredFileData) :
    (f ∈ L.take a ∨ f ∈ L.take b) ↔ f ∈ L.take (max a b) := by
  constructor
  · rintro (h | h)
    · exact (List.take_prefix_take_left L (le_max_left a b)).subset h
    · exact (List.take_prefix_take_left L (le_max_right a b)).subset h
  · intro h
    rcases Nat.le_total a b with hab | hab
    · rw [max_eq_right hab] at h
      exact Or.inr h
    · rw [max_eq_left hab] at h
      exact Or.inl h

theorem mem_drop_iff_of_nodup (L : List StoredFileData) (m : Nat) (hnd : L.Nodup)
    (f : StoredFileData) (hf : f ∈ L) : f ∈ L.drop m ↔ ¬ f ∈ L.take m := by
  constructor
  · intro hd ht
    exact List.disjoint_take_drop hnd le_rfl ht hd
  · intro ht
    rcases List.mem_append.mp (by rw [List.take_append_drop m L]; exact hf : 
      f ∈ L.take m ++ L.drop m) with h | h
    · exact absurd h ht
    · exact h

/-- C8 counterexample: an eviction call with `max_entries` set to `0` on
a one-entry store deletes nothing — `0` is falsy in the source, so
count-based eviction is skipped — while the claimed procedure (delete
oldest-accessed until the count is within the limit) would empty the
store. -/
theorem evict_max_entries_zero_counterexample :
    cleanupRemaining [⟨[65], 1, [], 1, 1, [[0]], 5, 5⟩] 5 ⟨none, some 0⟩ =
      [⟨[65], 1, [], 1, 1, [[0]], 5, 5⟩] ∧
    specEvictRemaining [⟨[65], 1, [], 1, 1, [[0]], 5, 5⟩] 5 ⟨none, some 0⟩ = [] ∧
    cleanupRemaining [⟨[65], 1, [], 1, 1, [[0]], 5, 5⟩] 5 ⟨none, some 0⟩ ≠
      specEvictRemaining [⟨[65], 1, [], 1, 1, [[0]], 5, 5⟩] 5 ⟨none, some 0⟩ := by
  decide

/-- Core of C8 over an arbitrary sorted store with distinct names: a
record survives the source's deletion set exactly when it survives the
spec procedure (age filter, then drop oldest until within the limit). -/
theorem evict_key (L : List StoredFileData) (cutoff k : Nat)
    (hs : L.Sorted accessLe) (hnd : (L.map (fun g => g.fileName)).Nodup)
    (hk : 1 ≤ k) (f : StoredFileData) :
    (f ∈ L ∧ ¬ f.fileName ∈
      (if k ≠ 0 ∧ L.length > k then
        ((L.filter (fun g => g.lastAccessedAt < cutoff)).map (fun g => g.fileName)) ++
          (((L.take (L.length - k)).map (fun g => g.fileName)).filter
            (fun n => ¬ n ∈ (L.filter (fun g => g.lastAccessedAt < cutoff)).map
              (fun g => g.fileName)))
      else (L.filter (fun g => g.lastAccessedAt < cutoff)).map (fun g => g.fileName))) ↔
    f ∈ (if (L.filter (fun g => ¬ g.lastAccessedAt < cutoff)).length > k then
        (L.filter (fun g => ¬ g.lastAccessedAt < cutoff)).drop
          ((L.filter (fun g => ¬ g.lastAccessedAt < cutoff)).length - k)
      else L.filter (fun g => ¬ g.lastAccessedAt < cutoff)) := by
  have hnodupL : L.Nodup := hnd.of_map
  obtain ⟨hfilt, hfresh⟩ := sorted_filter_parts cutoff L hs
  have htake : L.takeWhile (fun g => g.lastAccessedAt < cutoff) =
      L.take (L.takeWhile (fun g => g.lastAccessedAt < cutoff)).length :=
    List.prefix_iff_eq_take.mp (List.takeWhile_prefix _)
  set S := (L.takeWhile (fun g => g.lastAccessedAt < cutoff)).length with hS
  have hSle : S ≤ L.length := by
    rw [hS]
    exact (List.takeWhile_sublist _).length_le
  have hfilt2 : L.filter (fun g => g.lastAccessedAt < cutoff) = L.take S :=
    hfilt.trans htake
  have hdrop : L.filter (fun g => ¬ g.lastAccessedAt < cutoff) = L.drop S := by
    rw [hfresh]
    have hsplit := List.takeWhile_append_dropWhile
      (p := fun g => decide (g.lastAccessedAt < cutoff)) (l := L)
    calc L.dropWhile (fun g => g.lastAccessedAt < cutoff)
        = (L.takeWhile (fun g => g.lastAccessedAt < cutoff) ++
            L.dropWhile (fun g => g.lastAccessedAt < cutoff)).drop S := by
          rw [hS, List.drop_left]
      _ = L.drop S := by rw [hsplit]
  rw [hfilt2, hdrop, List.length_drop]
  by_cases hfmem : f ∈ L
  · have hmemtake : ∀ m : Nat,
        f.fileName ∈ (L.take m).map (fun g => g.fileName) ↔ f ∈ L.take m :=
      fun m => name_mem_map_iff L _ (List.take_subset _ _) hnd f hfmem
    have hmem_toDelete :
        f.fileName ∈ (if k ≠ 0 ∧ L.length > k then
            ((L.take S).map (fun g => g.fileName)) ++
              (((L.take (L.length - k)).map (fun g => g.fileName)).filter
                (fun n => ¬ n ∈ (L.take S).map (fun g => g.fileName)))
          else (L.take S).map (fun g => g.fileName)) ↔
          f ∈ L.take (if k ≠ 0 ∧ L.length > k then max S (L.length - k) else S) := by
      split_ifs with hc
      · rw [List.mem_append, List.mem_filter]
        constructor
        · rintro (h | ⟨h, _⟩)
          · exact (mem_take_or_iff L S (L.length - k) f).mp (Or.inl ((hmemtake S).mp h))
          · exact (mem_take_or_iff L S (L.length - k) f).mp
              (Or.inr ((hmemtake (L.length - k)).mp h))
        · intro h
          rcases (mem_take_or_iff L S (L.length - k) f).mpr h with h2 | h2
          · exact Or.inl ((hmemtake S).mpr h2)
          · by_cases hst : f.fileName ∈ (L.take S).map (fun g => g.fileName)
            · exact Or.inl hst
            · exact Or.inr ⟨(hmemtake (L.length - k)).mpr h2, by simpa using hst⟩
      · exact hmemtake S
    rw [hmem_toDelete]
    have hL : (f ∈ L ∧
        ¬ f ∈ L.take (if k ≠ 0 ∧ L.length > k then max S (L.length - k) else S)) ↔
        f ∈ L.drop (if k ≠ 0 ∧ L.length > k then max S (L.length - k) else S) := by
      constructor
      · rintro ⟨h1, h2⟩
        exact (mem_drop_iff_of_nodup L _ hnodupL f h1).mpr h2
      · intro h
        have hfl : f ∈ L := List.drop_subset _ _ h
        exact ⟨hfl, (mem_drop_iff_of_nodup L _ hnodupL f hfl).mp h⟩
    rw [hL]
    have hRHS :
        (f ∈ (if L.length - S > k then (L.drop S).drop (L.length - S - k) else L.drop S)) ↔
        f ∈ L.drop (if L.length - S > k then S + (L.length - S - k) else S) := by
      split_ifs with hc
      · rw [List.drop_drop]
      · exact Iff.rfl
    rw [hRHS]
    have hM : (if k ≠ 0 ∧ L.length > k then max S (L.length - k) else S) =
        (if L.length - S > k then S + (L.length - S - k) else S) := by
      split_ifs with h1 h2 h2 <;> omega
    rw [hM]
  · constructor
    · rintro ⟨h1, _⟩
      exact absurd h1 hfmem
    · intro h
      exfalso
      apply hfmem
      split_ifs at h with hc
      · exact List.drop_subset _ _ (List.drop_subset _ _ h)
      · exact List.drop_subset _ _ h

/-- C8 (amended): for every store with pairwise-distinct file names and
every eviction call whose `max_entries` is not the falsy `0`, an entry
survives `cleanupOldFiles` exactly when it survives the spec procedure —
delete entries whose `last_accessed_at` is older than `now - max_age_ms`;
if `max_entries` is set (non-zero) and the remaining count still exceeds
it, delete oldest-accessed entries first until within the limit — and
omitting both options equals passing the defaults `max_age_ms = 7 days`,
`max_entries = 1`. -/
theorem evict_matches_spec (files : List StoredFileData) (now : Nat)
    (options : CleanupOptions)
    (hnames : (files.map (fun g => g.fileName)).Nodup)
    (hmf : options.maxFiles ≠ some 0) :
    (∀ f, f ∈ cleanupRemaining files now options ↔
      f ∈ specEvictRemaining files now options) ∧
    cleanupOldFiles files now ⟨none, none⟩ =
      cleanupOldFiles files now ⟨some (7 * 24 * 60 * 60 * 1000), some 1⟩ := by
  refine ⟨?_, rfl⟩
  intro f
  have hperm : List.Perm (List.insertionSort accessLe files) files :=
    List.perm_insertionSort accessLe files
  have hsorted : (List.insertionSort accessLe files).Sorted accessLe :=
    List.sorted_insertionSort accessLe files
  have hnd : ((List.insertionSort accessLe files).map (fun g => g.fileName)).Nodup :=
    ((hperm.map (fun g => g.fileName)).nodup_iff).mpr hnames
  have hk1 : 1 ≤ options.maxFiles.getD 1 := by
    rcases hopt : options.maxFiles with _ | m
    · decide
    · have hm : m ≠ 0 := fun h0 => hmf (h0 ▸ hopt)
      simpa using Nat.one_le_iff_ne_zero.mpr hm
  have key := evict_key (List.insertionSort accessLe files)
    (now - options.maxAgeMs.getD (7 * 24 * 60 * 60 * 1000)) (options.maxFiles.getD 1)
    hsorted hnd hk1 f
  rw [cleanupRemaining, List.mem_filter]
  simp only [decide_eq_true_eq]
  rw [specEvictRemaining, cleanupOldFiles]
  rw [← List.Perm.mem_iff hperm]
  exact key

/-- Witness for C8 (amended) at a two-entry store: one stale entry, one
fresh, default age, `max_entries = 1`. -/
theorem evict_matches_spec_witness :
    (([⟨[65], 1, [], 1, 1, [[0]], 5, 5⟩,
        ⟨[66], 1, [], 1, 1, [[0]], 999999999999, 999999999999⟩] :
      List StoredFileData).map (fun g => g.fileName)).Nodup ∧
    (CleanupOptions.mk none (some 1)).maxFiles ≠ some 0 ∧
    ((∀ f, f ∈ cleanupRemaining [⟨[65], 1, [], 1, 1, [[0]], 5, 5⟩,
          ⟨[66], 1, [], 1, 1, [[0]], 999999999999, 999999999999⟩] 999999999999
          ⟨none, some 1⟩ ↔
        f ∈ specEvictRemaining [⟨[65], 1, [], 1, 1, [[0]], 5, 5⟩,
          ⟨[66], 1, [], 1, 1, [[0]], 999999999999, 999999999999⟩] 999999999999
          ⟨none, some 1⟩) ∧
      cleanupOldFiles [⟨[65], 1, [], 1, 1, [[0]], 5, 5⟩,
          ⟨[66], 1, [], 1, 1, [[0]], 999999999999, 999999999999⟩] 999999999999
          ⟨none, none⟩ =
        cleanupOldFiles [⟨[65], 1, [], 1, 1, [[0]], 5, 5⟩,
          ⟨[66], 1, [], 1, 1, [[0]], 999999999999, 999999999999⟩] 999999999999
          ⟨some (7 * 24 * 60 * 60 * 1000), some 1⟩) :=
  ⟨by decide, by decide, evict_matches_spec _ 999999999999 ⟨none, some 1⟩ (by decide) (by decide)⟩

end Beam
